import Mathlib

/-!
Verification of the FocusTask board (src/src/App.tsx).

The board state is a list of sections, each holding columns, each holding
tasks.  Every mutation in the source is a pure transformation of the
`sections` array (the component immediately replaces the state with the
returned value), so each handler is embedded as a function `Board → Board`.
`Date.now()` is modelled as an explicit `now : Nat` argument; JavaScript's
`String.prototype.trim` is modelled by `jsTrim`, which strips the ASCII
whitespace characters from both ends (the embedding keeps it executable).
-/

namespace FocusTask

/-- interface Task (App.tsx lines 4-8). -/
structure Task where
  id : String
  title : String
  completed : Bool
deriving DecidableEq, Repr

/-- interface Column (App.tsx lines 10-14). -/
structure Column where
  id : String
  title : String
  tasks : List Task
deriving DecidableEq, Repr

/-- interface Section (App.tsx lines 16-20). -/
structure Section where
  id : String
  title : String
  columns : List Column
deriving DecidableEq, Repr

/-- The board state: the `sections` array held by the component. -/
abbrev Board := List Section

/-- Is `c` one of the whitespace characters removed by `trim()`?
JavaScript also strips some rarer Unicode space characters; the embedding
covers the ASCII ones, which is all the claims depend on. -/
def isJsWs (c : Char) : Bool :=
  c == ' ' || c == '\t' || c == '\n' || c == '\r' || c == '\x0b' || c == '\x0c'

/-- Model of `s.trim()`: strip leading and trailing whitespace. -/
def jsTrim (s : String) : String :=
  ⟨((s.data.dropWhile isJsWs).reverse.dropWhile isJsWs).reverse⟩

/-- The seed board used as first-run content (App.tsx lines 47-76). -/
def initialSections : Board :=
  [⟨"1", "Project Planning",
     [⟨"c1", "To Do", [⟨"t1", "Sample task 1", false⟩, ⟨"t3", "Completed sample task", true⟩]⟩,
      ⟨"c2", "In Progress", [⟨"t2", "Sample task 2", false⟩]⟩,
      ⟨"c3", "Done", []⟩]⟩,
   ⟨"2", "Development",
     [⟨"c4", "Backlog", []⟩,
      ⟨"c5", "In Development", []⟩]⟩]

/-- The column created by `addSection` and `addColumn` (`col-${Date.now()}`). -/
def newColumn (now : Nat) : Column :=
  { id := "col-" ++ toString now, title := "New Column", tasks := [] }

/-- Handler `addSection` (App.tsx lines 89-96).  Both `Date.now()` calls of the
handler are modelled as the same timestamp. -/
def addSection (now : Nat) (sections : Board) : Board :=
  sections ++ [{ id := toString now, title := "New Section", columns := [newColumn now] }]

/-- Handler `deleteSection` (App.tsx lines 98-100). -/
def deleteSection (sectionId : String) (sections : Board) : Board :=
  sections.filter (fun s => s.id != sectionId)

/-- Handler `clearCompletedTasks` (App.tsx lines 102-116). -/
def clearCompletedTasks (sectionId : String) (sections : Board) : Board :=
  sections.map fun s =>
    if s.id = sectionId then
      { s with columns := s.columns.map fun col =>
          { col with tasks := col.tasks.filter (fun task => !task.completed) } }
    else s

/-- Handler `editSectionTitle` (App.tsx lines 118-127); the `setEditingSection`
call only touches view state and is out of the model. -/
def editSectionTitle (sectionId newTitle : String) (sections : Board) : Board :=
  if jsTrim newTitle ≠ "" then
    sections.map fun s => if s.id = sectionId then { s with title := newTitle } else s
  else sections

/-- Handler `addColumn` (App.tsx lines 129-142). -/
def addColumn (sectionId : String) (now : Nat) (sections : Board) : Board :=
  sections.map fun s =>
    if s.id = sectionId then { s with columns := s.columns ++ [newColumn now] } else s

/-- Handler `removeColumn` (App.tsx lines 144-152); `slice(0, -1)` is `dropLast`. -/
def removeColumn (sectionId : String) (sections : Board) : Board :=
  sections.map fun s =>
    if s.id = sectionId ∧ 1 < s.columns.length then
      { s with columns := s.columns.dropLast }
    else s

/-- Handler `editColumnTitle` (App.tsx lines 154-174). -/
def editColumnTitle (sectionId columnId newTitle : String) (sections : Board) : Board :=
  if jsTrim newTitle ≠ "" then
    sections.map fun s =>
      if s.id = sectionId then
        { s with columns := s.columns.map fun col =>
            if col.id = columnId then { col with title := newTitle } else col }
      else s
  else sections

/-- The task created by `addTask` (`task-${Date.now()}`). -/
def newTask (now : Nat) (taskTitle : String) : Task :=
  { id := "task-" ++ toString now, title := taskTitle, completed := false }

/-- Handler `addTask` (App.tsx lines 176-198). -/
def addTask (sectionId columnId taskTitle : String) (now : Nat) (sections : Board) : Board :=
  if jsTrim taskTitle ≠ "" then
    sections.map fun s =>
      if s.id = sectionId then
        { s with columns := s.columns.map fun col =>
            if col.id = columnId then { col with tasks := col.tasks ++ [newTask now taskTitle] } else col }
      else s
  else sections

/-- Handler `deleteTask` (App.tsx lines 200-218). -/
def deleteTask (sectionId columnId taskId : String) (sections : Board) : Board :=
  sections.map fun s =>
    if s.id = sectionId then
      { s with columns := s.columns.map fun col =>
          if col.id = columnId then { col with tasks := col.tasks.filter (fun task => task.id != taskId) } else col }
    else s

/-- Handler `toggleTaskCompletion` (App.tsx lines 220-246). -/
def toggleTaskCompletion (sectionId columnId taskId : String) (sections : Board) : Board :=
  sections.map fun s =>
    if s.id = sectionId then
      { s with columns := s.columns.map fun col =>
          if col.id = columnId then
            { col with tasks := col.tasks.map fun task =>
                if task.id = taskId then { task with completed := !task.completed } else task }
          else col }
    else s

/-- Handler `editTaskTitle` (App.tsx lines 248-278). -/
def editTaskTitle (sectionId columnId taskId newTitle : String) (sections : Board) : Board :=
  if jsTrim newTitle ≠ "" then
    sections.map fun s =>
      if s.id = sectionId then
        { s with columns := s.columns.map fun col =>
            if col.id = columnId then
              { col with tasks := col.tasks.map fun task =>
                  if task.id = taskId then { task with title := newTitle } else task }
            else col }
      else s
  else sections

/-- The `draggedTask` record set by `handleDragStart` (App.tsx lines 78-82). -/
structure DraggedTask where
  task : Task
  fromSection : String
  fromColumn : String
deriving DecidableEq, Repr

/-- Handler `handleDrop` (App.tsx lines 292-335): remove the dragged task's id from
the source column, then append the dragged task value to the target column. -/
def handleDrop (dragged : DraggedTask) (toSectionId toColumnId : String) (sections : Board) : Board :=
  let updatedSections := sections.map fun s =>
    if s.id = dragged.fromSection then
      { s with columns := s.columns.map fun col =>
          if col.id = dragged.fromColumn then
            { col with tasks := col.tasks.filter (fun task => task.id != dragged.task.id) }
          else col }
    else s
  updatedSections.map fun s =>
    if s.id = toSectionId then
      { s with columns := s.columns.map fun col =>
          if col.id = toColumnId then { col with tasks := col.tasks ++ [dragged.task] } else col }
    else s

/-- One markdown line of `copySectionAsMarkdown` (App.tsx line 384). -/
def taskLine (column : Column) (task : Task) : String :=
  "- " ++ (if task.completed then "[x]" else "[ ]") ++ " " ++ column.title ++ ": " ++ task.title

/-- Handler `copySectionAsMarkdown` (App.tsx lines 378-397): the nested `forEach`
pushes are folds that append one line per task; the clipboard write and the
transient indicator are view effects outside the model. -/
def copySectionAsMarkdown (s : Section) : String :=
  let markdownLines :=
    s.columns.foldl (fun acc column => column.tasks.foldl (fun acc2 task => acc2 ++ [taskLine column task]) acc) []
  String.intercalate "\n" markdownLines

/-! ### Generic list helpers -/

/-- A map whose function fixes every member is the identity. -/
theorem map_eq_self_of {α : Type} (l : List α) (f : α → α) (h : ∀ x ∈ l, f x = x) :
    l.map f = l :=
  (List.map_congr_left h).trans (List.map_id l)

/-- Replacing a section's columns by themselves is the identity. -/
theorem sec_eta (s : Section) : { s with columns := s.columns } = s := rfl

/-- Replacing a column's tasks by themselves is the identity. -/
theorem col_eta (c : Column) : { c with tasks := c.tasks } = c := rfl

/-- A section-guarded map is the identity when no section carries the id. -/
theorem secmap_noop (b : Board) (sid : String) (F : Section → Section)
    (h : ∀ s ∈ b, s.id ≠ sid) :
    (b.map fun s => if s.id = sid then F s else s) = b :=
  map_eq_self_of _ _ fun s hsi => if_neg (h s hsi)

/-- A column-guarded map is the identity when no column carries the id. -/
theorem colmap_noop (cols : List Column) (cid : String) (G : Column → Column)
    (h : ∀ c ∈ cols, c.id ≠ cid) :
    (cols.map fun c => if c.id = cid then G c else c) = cols :=
  map_eq_self_of _ _ fun c hci => if_neg (h c hci)

/-- A task-guarded map is the identity when no task carries the id. -/
theorem taskmap_noop (tasks : List Task) (tid : String) (H : Task → Task)
    (h : ∀ t ∈ tasks, t.id ≠ tid) :
    (tasks.map fun t => if t.id = tid then H t else t) = tasks :=
  map_eq_self_of _ _ fun t hti => if_neg (h t hti)

/-- Filtering out an id that no task carries is the identity. -/
theorem taskfilter_noop (tasks : List Task) (tid : String)
    (h : ∀ t ∈ tasks, t.id ≠ tid) :
    (tasks.filter fun t => t.id != tid) = tasks :=
  List.filter_eq_self.mpr fun t hti => by simpa [bne_iff_ne] using h t hti

/-- A section-guarded map that rebuilds each matched section's columns
unchanged is the identity. -/
theorem secmap_congr_inner (b : Board) (sid : String) (G : Section → List Column)
    (h : ∀ s ∈ b, G s = s.columns) :
    (b.map fun s => if s.id = sid then { s with columns := G s } else s) = b :=
  map_eq_self_of _ _ fun s hsi => by
    by_cases hid : s.id = sid
    · rw [if_pos hid, h s hsi]
    · exact if_neg hid

/-- A column-guarded map that rebuilds each matched column's tasks
unchanged is the identity. -/
theorem colmap_congr_inner (cols : List Column) (cid : String) (H : Column → List Task)
    (h : ∀ c ∈ cols, H c = c.tasks) :
    (cols.map fun c => if c.id = cid then { c with tasks := H c } else c) = cols :=
  map_eq_self_of _ _ fun c hci => by
    by_cases hid : c.id = cid
    · rw [if_pos hid, h c hci]
    · exact if_neg hid

/-! ### Positional accessors used to state per-entity conclusions -/

/-- The `j`-th column of the `i`-th section, when both exist. -/
def columnAt (b : Board) (i j : Nat) : Option Column :=
  b[i]?.bind fun s => s.columns[j]?

/-- The `k`-th task of the `j`-th column of the `i`-th section. -/
def taskAt (b : Board) (i j k : Nat) : Option Task :=
  (columnAt b i j).bind fun c => c.tasks[k]?

/-! ### C3: removeColumn keeps the minimum of one column -/

/-- Claim C3: `removeColumn` leaves a section with exactly one column
unchanged; on the named section with more than one column it removes
exactly the last column (the remaining columns plus that last one are the
original columns). -/
theorem removeColumn_min_one_spec (sections : Board) (sectionId : String) (i : Nat) (s : Section)
    (hs : sections[i]? = some s) :
    (s.columns.length = 1 → (removeColumn sectionId sections)[i]? = some s) ∧
    (s.id = sectionId → 1 < s.columns.length →
      (removeColumn sectionId sections)[i]? = some { s with columns := s.columns.dropLast } ∧
      ∃ c, s.columns = s.columns.dropLast ++ [c]) := by
  unfold removeColumn
  rw [List.getElem?_map, hs]
  constructor
  · intro h1
    have hno : ¬(s.id = sectionId ∧ 1 < s.columns.length) := by
      rintro ⟨_, hlt⟩
      omega
    simp [if_neg hno]
  · intro hid hlen
    have hne : s.columns ≠ [] := by
      intro hnil
      rw [hnil] at hlen
      simp at hlen
    refine ⟨by simp [if_pos (And.intro hid hlen)], s.columns.getLast hne, ?_⟩
    exact (List.dropLast_append_getLast hne).symm

/-- A one-column section used to exercise the minimum-1 rule. -/
def oneColBoard : Board := [⟨"9", "Solo", [⟨"c9", "Only", []⟩]⟩]

theorem removeColumn_min_one_spec_witness :
    (removeColumn "9" oneColBoard)[0]? = some ⟨"9", "Solo", [⟨"c9", "Only", []⟩]⟩ ∧
    (removeColumn "1" initialSections)[0]? =
      some ⟨"1", "Project Planning",
        [⟨"c1", "To Do", [⟨"t1", "Sample task 1", false⟩, ⟨"t3", "Completed sample task", true⟩]⟩,
         ⟨"c2", "In Progress", [⟨"t2", "Sample task 2", false⟩]⟩]⟩ :=
  ⟨(removeColumn_min_one_spec oneColBoard "9" 0 _ rfl).1 rfl,
   ((removeColumn_min_one_spec initialSections "1" 0 _ rfl).2 rfl (by decide)).1⟩

/-! ### C7: blank rename input is discarded -/

/-- Claim C7: renaming a section, column or task with an input whose
trimmed form is empty leaves the whole board unchanged. -/
theorem blank_rename_noop (sections : Board) (sectionId columnId taskId newTitle : String)
    (h : jsTrim newTitle = "") :
    editSectionTitle sectionId newTitle sections = sections ∧
    editColumnTitle sectionId columnId newTitle sections = sections ∧
    editTaskTitle sectionId columnId taskId newTitle sections = sections := by
  refine ⟨?_, ?_, ?_⟩ <;> simp [editSectionTitle, editColumnTitle, editTaskTitle, h]

theorem blank_rename_noop_witness :
    editSectionTitle "1" "   " initialSections = initialSections ∧
    editColumnTitle "1" "c1" "   " initialSections = initialSections ∧
    editTaskTitle "1" "c1" "t1" "   " initialSections = initialSections :=
  blank_rename_noop initialSections "1" "c1" "t1" "   " (by decide)

/-! ### C8: clearCompletedTasks is idempotent and scoped -/

/-- Claim C8: `clearCompletedTasks` applied twice equals it applied once;
it leaves every section with a different id unchanged, and on the named
section it replaces each column's tasks by exactly the tasks that are not
completed. -/
theorem clearCompletedTasks_spec (sections : Board) (sectionId : String) :
    clearCompletedTasks sectionId (clearCompletedTasks sectionId sections) =
      clearCompletedTasks sectionId sections ∧
    ∀ (i : Nat) (s : Section), sections[i]? = some s →
      (s.id ≠ sectionId → (clearCompletedTasks sectionId sections)[i]? = some s) ∧
      (s.id = sectionId →
        (clearCompletedTasks sectionId sections)[i]? =
          some { s with columns := s.columns.map fun col =>
            { col with tasks := col.tasks.filter (fun task => !task.completed) } } ∧
        ∀ col ∈ s.columns, ∀ t : Task,
          t ∈ col.tasks.filter (fun task => !task.completed) ↔ t ∈ col.tasks ∧ t.completed = false) := by
  constructor
  · unfold clearCompletedTasks
    rw [List.map_map]
    apply List.map_congr_left
    intro s _
    by_cases hid : s.id = sectionId
    · simp [hid, List.map_map, List.filter_filter]
    · simp [hid]
  · intro i s hs
    unfold clearCompletedTasks
    rw [List.getElem?_map, hs]
    constructor
    · intro hid
      simp [if_neg hid]
    · intro hid
      refine ⟨by simp [if_pos hid], ?_⟩
      intro col _ t
      simp [List.mem_filter]

theorem clearCompletedTasks_spec_witness :
    clearCompletedTasks "1" (clearCompletedTasks "1" initialSections) =
      clearCompletedTasks "1" initialSections ∧
    (clearCompletedTasks "1" initialSections)[1]? =
      some ⟨"2", "Development", [⟨"c4", "Backlog", []⟩, ⟨"c5", "In Development", []⟩]⟩ ∧
    (clearCompletedTasks "1" initialSections)[0]? =
      some ⟨"1", "Project Planning",
        [⟨"c1", "To Do", [⟨"t1", "Sample task 1", false⟩]⟩,
         ⟨"c2", "In Progress", [⟨"t2", "Sample task 2", false⟩]⟩,
         ⟨"c3", "Done", []⟩]⟩ :=
  ⟨(clearCompletedTasks_spec initialSections "1").1,
   ((clearCompletedTasks_spec initialSections "1").2 1 _ rfl).1 (by decide),
   (((clearCompletedTasks_spec initialSections "1").2 0 _ rfl).2 rfl).1⟩

/-! ### C10: titles are checked with trim but stored verbatim -/

/-- Claim C10: when the trimmed input is non-empty, every title-accepting
operation stores the input string itself, untrimmed: the renamed section,
column or task carries exactly `newTitle`, and `addTask` appends a task
whose title is exactly `newTitle`. -/
theorem title_stored_verbatim (sections : Board) (sectionId columnId taskId newTitle : String)
    (now : Nat) (hne : jsTrim newTitle ≠ "") :
    ∀ (i : Nat) (s : Section), sections[i]? = some s → s.id = sectionId →
      ((editSectionTitle sectionId newTitle sections)[i]? = some { s with title := newTitle } ∧
       ∀ (j : Nat) (c : Column), s.columns[j]? = some c → c.id = columnId →
         (columnAt (editColumnTitle sectionId columnId newTitle sections) i j =
            some { c with title := newTitle } ∧
          columnAt (addTask sectionId columnId newTitle now sections) i j =
            some { c with tasks := c.tasks ++ [newTask now newTitle] } ∧
          ∀ (k : Nat) (t : Task), c.tasks[k]? = some t → t.id = taskId →
            taskAt (editTaskTitle sectionId columnId taskId newTitle sections) i j k =
              some { t with title := newTitle })) := by
  intro i s hsi hsid
  constructor
  · unfold editSectionTitle
    rw [if_pos hne, List.getElem?_map, hsi]
    simp [hsid]
  · intro j c hcj hcid
    refine ⟨?_, ?_, ?_⟩
    · unfold editColumnTitle columnAt
      rw [if_pos hne, List.getElem?_map, hsi]
      simp [hsid, List.getElem?_map, hcj, hcid]
    · unfold addTask columnAt
      rw [if_pos hne, List.getElem?_map, hsi]
      simp [hsid, List.getElem?_map, hcj, hcid]
    · intro k t htk htid
      unfold editTaskTitle taskAt columnAt
      rw [if_pos hne, List.getElem?_map, hsi]
      simp [hsid, List.getElem?_map, hcj, hcid, htk, htid]

theorem title_stored_verbatim_witness :
    (editSectionTitle "1" " Plans " initialSections)[0]? =
      some ⟨"1", " Plans ",
        [⟨"c1", "To Do", [⟨"t1", "Sample task 1", false⟩, ⟨"t3", "Completed sample task", true⟩]⟩,
         ⟨"c2", "In Progress", [⟨"t2", "Sample task 2", false⟩]⟩,
         ⟨"c3", "Done", []⟩]⟩ ∧
    columnAt (editColumnTitle "1" "c1" " Plans " initialSections) 0 0 =
      some ⟨"c1", " Plans ", [⟨"t1", "Sample task 1", false⟩, ⟨"t3", "Completed sample task", true⟩]⟩ ∧
    columnAt (addTask "1" "c1" " Plans " 42 initialSections) 0 0 =
      some ⟨"c1", "To Do",
        [⟨"t1", "Sample task 1", false⟩, ⟨"t3", "Completed sample task", true⟩,
         ⟨"task-42", " Plans ", false⟩]⟩ ∧
    taskAt (editTaskTitle "1" "c1" "t1" " Plans " initialSections) 0 0 0 =
      some ⟨"t1", " Plans ", false⟩ := by
  have h := title_stored_verbatim initialSections "1" "c1" "t1" " Plans " 42 (by decide) 0 _ rfl rfl
  exact ⟨h.1, (h.2 0 _ rfl rfl).1, (h.2 0 _ rfl rfl).2.1, (h.2 0 _ rfl rfl).2.2 0 _ rfl rfl⟩

/-! ### C2: unknown ids -/

/-- The dragged task used in the C2 counterexample: it exists in the board,
but the drop target ids match nothing. -/
def straysDrag : DraggedTask := ⟨⟨"t1", "Sample task 1", false⟩, "1", "c1"⟩

/-- Claim C2 counterexample: `handleDrop` is one of the mutation operations
taking ids, yet invoked with a destination section/column id that matches no
entity it changes the board — the task is removed from its source column and
appended nowhere, a partial change rather than a no-op. -/
theorem handleDrop_unknown_dest_changes_board :
    handleDrop straysDrag "missing-section" "missing-column" initialSections ≠ initialSections := by
  decide

/-- Claim C2 as amended: every mutation operation other than `handleDrop`
(`deleteSection`, `clearCompletedTasks`, `editSectionTitle`, `addColumn`,
`removeColumn`, `editColumnTitle`, `addTask`, `deleteTask`,
`toggleTaskCompletion`, `editTaskTitle`) is a silent no-op whenever any of
the ids it receives matches no entity of the corresponding kind: the board
is returned unchanged.  (`handleDrop` is the exception the counterexample
exhibits.) -/
theorem unknown_id_noop (sections : Board) (sid cid tid title : String) (now : Nat)
    (hs : ∀ s ∈ sections, s.id ≠ sid)
    (hc : ∀ s ∈ sections, ∀ c ∈ s.columns, c.id ≠ cid)
    (ht : ∀ s ∈ sections, ∀ c ∈ s.columns, ∀ t ∈ c.tasks, t.id ≠ tid) :
    deleteSection sid sections = sections ∧
    clearCompletedTasks sid sections = sections ∧
    editSectionTitle sid title sections = sections ∧
    addColumn sid now sections = sections ∧
    removeColumn sid sections = sections ∧
    (∀ c2, editColumnTitle sid c2 title sections = sections) ∧
    (∀ s2, editColumnTitle s2 cid title sections = sections) ∧
    (∀ c2, addTask sid c2 title now sections = sections) ∧
    (∀ s2, addTask s2 cid title now sections = sections) ∧
    (∀ c2 t2, deleteTask sid c2 t2 sections = sections) ∧
    (∀ s2 t2, deleteTask s2 cid t2 sections = sections) ∧
    (∀ s2 c2, deleteTask s2 c2 tid sections = sections) ∧
    (∀ c2 t2, toggleTaskCompletion sid c2 t2 sections = sections) ∧
    (∀ s2 t2, toggleTaskCompletion s2 cid t2 sections = sections) ∧
    (∀ s2 c2, toggleTaskCompletion s2 c2 tid sections = sections) ∧
    (∀ c2 t2, editTaskTitle sid c2 t2 title sections = sections) ∧
    (∀ s2 t2, editTaskTitle s2 cid t2 title sections = sections) ∧
    (∀ s2 c2, editTaskTitle s2 c2 tid title sections = sections) := by
  refine ⟨?_, ?_, ?_, ?_, ?_, ?_, ?_, ?_, ?_, ?_, ?_, ?_, ?_, ?_, ?_, ?_, ?_, ?_⟩
  · exact List.filter_eq_self.mpr fun s hsi => by simpa [bne_iff_ne] using hs s hsi
  · exact secmap_noop _ _ _ hs
  · unfold editSectionTitle
    split
    · exact secmap_noop _ _ _ hs
    · rfl
  · exact secmap_noop _ _ _ hs
  · exact map_eq_self_of _ _ fun s hsi => if_neg fun hand => hs s hsi hand.1
  · intro c2
    unfold editColumnTitle
    split
    · exact secmap_noop _ _ _ hs
    · rfl
  · intro s2
    unfold editColumnTitle
    split
    · exact secmap_congr_inner _ _ _ fun s hsi => colmap_noop _ _ _ (hc s hsi)
    · rfl
  · intro c2
    unfold addTask
    split
    · exact secmap_noop _ _ _ hs
    · rfl
  · intro s2
    unfold addTask
    split
    · exact secmap_congr_inner _ _ _ fun s hsi => colmap_noop _ _ _ (hc s hsi)
    · rfl
  · intro c2 t2
    exact secmap_noop _ _ _ hs
  · intro s2 t2
    exact secmap_congr_inner _ _ _ fun s hsi => colmap_noop _ _ _ (hc s hsi)
  · intro s2 c2
    exact secmap_congr_inner _ _ _ fun s hsi =>
      colmap_congr_inner _ _ _ fun c hci => taskfilter_noop _ _ (ht s hsi c hci)
  · intro c2 t2
    exact secmap_noop _ _ _ hs
  · intro s2 t2
    exact secmap_congr_inner _ _ _ fun s hsi => colmap_noop _ _ _ (hc s hsi)
  · intro s2 c2
    exact secmap_congr_inner _ _ _ fun s hsi =>
      colmap_congr_inner _ _ _ fun c hci => taskmap_noop _ _ _ (ht s hsi c hci)
  · intro c2 t2
    unfold editTaskTitle
    split
    · exact secmap_noop _ _ _ hs
    · rfl
  · intro s2 t2
    unfold editTaskTitle
    split
    · exact secmap_congr_inner _ _ _ fun s hsi => colmap_noop _ _ _ (hc s hsi)
    · rfl
  · intro s2 c2
    unfold editTaskTitle
    split
    · exact secmap_congr_inner _ _ _ fun s hsi =>
        colmap_congr_inner _ _ _ fun c hci => taskmap_noop _ _ _ (ht s hsi c hci)
    · rfl

theorem unknown_id_noop_witness :
    deleteSection "zzz" initialSections = initialSections ∧
    removeColumn "zzz" initialSections = initialSections ∧
    deleteTask "1" "c1" "zzz" initialSections = initialSections ∧
    toggleTaskCompletion "zzz" "c1" "t1" initialSections = initialSections := by
  have h := unknown_id_noop initialSections "zzz" "zzz" "zzz" "New task" 0
    (by decide) (by decide) (by decide)
  exact ⟨h.1, h.2.2.2.2.1, h.2.2.2.2.2.2.2.2.2.2.2.1 "1" "c1",
    h.2.2.2.2.2.2.2.2.2.2.2.2.1 "c1" "t1"⟩

/-! ### C9: markdown export -/

/-- Pushing one line per task onto an accumulator is appending the mapped
task list. -/
theorem taskfold_eq (f : Task → String) (tasks : List Task) (acc : List String) :
    tasks.foldl (fun acc2 task => acc2 ++ [f task]) acc = acc ++ tasks.map f := by
  induction tasks generalizing acc with
  | nil => simp
  | cons t ts ih => simp [ih]

/-- Folding list appends over a list flattens the mapped lists. -/
theorem appendfold_eq {α β : Type} (g : α → List β) (l : List α) (acc : List β) :
    l.foldl (fun a x => a ++ g x) acc = acc ++ (l.map g).flatten := by
  induction l generalizing acc with
  | nil => simp
  | cons x xs ih => simp [ih]

/-- The nested pushes of `copySectionAsMarkdown` build the flat list of
lines, columns in stored order and tasks in stored order within each. -/
theorem colfold_eq (cols : List Column) (acc : List String) :
    cols.foldl (fun acc column => column.tasks.foldl
        (fun acc2 task => acc2 ++ [taskLine column task]) acc) acc =
      acc ++ (cols.map fun c => c.tasks.map (taskLine c)).flatten := by
  simp only [taskfold_eq]
  exact appendfold_eq _ cols acc

/-- Claim C9: the markdown export is the flat list of one line per task —
columns in stored order, tasks in stored order within each column — joined
by newlines with no trailing newline (`String.intercalate "\n"`); the line
count equals the section's task count; and the two-column scenario yields
exactly the expected text. -/
theorem copySectionAsMarkdown_spec :
    (∀ s : Section, copySectionAsMarkdown s =
      String.intercalate "\n" ((s.columns.map fun c => c.tasks.map (taskLine c)).flatten)) ∧
    (∀ s : Section, ((s.columns.map fun c => c.tasks.map (taskLine c)).flatten).length =
      (s.columns.map fun c => c.tasks.length).sum) ∧
    copySectionAsMarkdown
        ⟨"s", "Sec", [⟨"cA", "To Do", [⟨"tA", "A", false⟩]⟩,
                      ⟨"cB", "Done", [⟨"tB", "B", true⟩]⟩]⟩ =
      "- [ ] To Do: A\n- [x] Done: B" := by
  refine ⟨?_, ?_, by decide⟩
  · intro s
    unfold copySectionAsMarkdown
    rw [colfold_eq]
    simp
  · intro s
    rw [List.length_flatten, List.map_map]
    exact congrArg List.sum (List.map_congr_left fun c _ => by simp)

/-! ### C1: handleDrop conserves tasks -/

/-- The first half of `handleDrop`: remove the dragged task's id from the
source column (App.tsx lines 299-316). -/
def removePhase (dragged : DraggedTask) (sections : Board) : Board :=
  sections.map fun s =>
    if s.id = dragged.fromSection then
      { s with columns := s.columns.map fun col =>
          if col.id = dragged.fromColumn then
            { col with tasks := col.tasks.filter (fun task => task.id != dragged.task.id) }
          else col }
    else s

/-- The second half of `handleDrop`: append the dragged task to the target
column (App.tsx lines 318-330). -/
def appendPhase (dragged : DraggedTask) (toSectionId toColumnId : String) (sections : Board) : Board :=
  sections.map fun s =>
    if s.id = toSectionId then
      { s with columns := s.columns.map fun col =>
          if col.id = toColumnId then { col with tasks := col.tasks ++ [dragged.task] } else col }
    else s

theorem handleDrop_eq_phases (dragged : DraggedTask) (toSectionId toColumnId : String) (sections : Board) :
    handleDrop dragged toSectionId toColumnId sections =
      appendPhase dragged toSectionId toColumnId (removePhase dragged sections) := rfl

/-- Total number of tasks on the board. -/
def taskCount (b : Board) : Nat :=
  (b.map fun s => (s.columns.map fun c => c.tasks.length).sum).sum

/-- Number of tasks on the board carrying the id `tid`. -/
def idCount (tid : String) (b : Board) : Nat :=
  (b.map fun s => (s.columns.map fun c => c.tasks.countP (fun t => t.id == tid)).sum).sum

/-- Number of columns on the board containing a task with id `tid`. -/
def colsWithId (tid : String) (b : Board) : Nat :=
  (b.map fun s => (s.columns.map fun c => if c.tasks.any (fun t => t.id == tid) then 1 else 0).sum).sum

/-- Number of occurrences of the dragged task's id inside the drop's
source column. -/
def srcHits (dragged : DraggedTask) (b : Board) : Nat :=
  (b.map fun s =>
    if s.id = dragged.fromSection then
      (s.columns.map fun c =>
        if c.id = dragged.fromColumn then c.tasks.countP (fun t => t.id == dragged.task.id) else 0).sum
    else 0).sum

/-- Number of columns the drop target ids denote. -/
def destSlots (toSectionId toColumnId : String) (b : Board) : Nat :=
  (b.map fun s =>
    if s.id = toSectionId then
      (s.columns.map fun c => if c.id = toColumnId then 1 else 0).sum
    else 0).sum

/-- A task list splits into the tasks kept and the tasks removed by the
drop's source filter. -/
theorem len_split (tid : String) (l : List Task) :
    (l.filter fun t => t.id != tid).length + l.countP (fun t => t.id == tid) = l.length := by
  induction l with
  | nil => simp
  | cons t ts ih =>
    by_cases h : t.id = tid <;>
      simp [List.filter_cons, List.countP_cons, h] <;> omega

/-- The removal phase takes away exactly the source-column occurrences. -/
theorem removePhase_taskCount (d : DraggedTask) (b : Board) :
    taskCount (removePhase d b) + srcHits d b = taskCount b := by
  unfold taskCount removePhase srcHits
  rw [List.map_map, ← List.sum_map_add]
  apply congrArg List.sum
  apply List.map_congr_left
  intro s _
  by_cases hid : s.id = d.fromSection
  · simp only [Function.comp_apply, if_pos hid]
    rw [List.map_map, ← List.sum_map_add]
    apply congrArg List.sum
    apply List.map_congr_left
    intro c _
    by_cases hcid : c.id = d.fromColumn
    · simp only [Function.comp_apply, if_pos hcid]
      exact len_split d.task.id c.tasks
    · simp [hcid]
  · simp [hid]

/-- The removal phase removes only tasks carrying the dragged id. -/
theorem removePhase_idCount (d : DraggedTask) (b : Board) :
    idCount d.task.id (removePhase d b) + srcHits d b = idCount d.task.id b := by
  unfold idCount removePhase srcHits
  rw [List.map_map, ← List.sum_map_add]
  apply congrArg List.sum
  apply List.map_congr_left
  intro s _
  by_cases hid : s.id = d.fromSection
  · simp only [Function.comp_apply, if_pos hid]
    rw [List.map_map, ← List.sum_map_add]
    apply congrArg List.sum
    apply List.map_congr_left
    intro c _
    by_cases hcid : c.id = d.fromColumn
    · simp only [Function.comp_apply, if_pos hcid]
      have hz : (c.tasks.filter fun t => t.id != d.task.id).countP (fun t => t.id == d.task.id) = 0 := by
        rw [List.countP_filter]
        apply List.countP_eq_zero.mpr
        intro t _
        cases h : t.id == d.task.id <;> simp [bne, h]
      simp [hz]
    · simp [hcid]
  · simp [hid]

/-- The removal phase does not move or rename sections and columns, so the
drop target denotes the same column slots before and after it. -/
theorem removePhase_destSlots (d : DraggedTask) (toSectionId toColumnId : String) (b : Board) :
    destSlots toSectionId toColumnId (removePhase d b) = destSlots toSectionId toColumnId b := by
  unfold destSlots removePhase
  rw [List.map_map]
  apply congrArg List.sum
  apply List.map_congr_left
  intro s _
  by_cases hid : s.id = d.fromSection
  · simp only [Function.comp_apply, if_pos hid]
    by_cases hto : s.id = toSectionId
    · rw [if_pos hto, if_pos hto, List.map_map]
      apply congrArg List.sum
      apply List.map_congr_left
      intro c _
      by_cases hcid : c.id = d.fromColumn <;> simp [hcid]
    · rw [if_neg hto, if_neg hto]
  · simp [hid]

/-- The append phase adds exactly one task per target column slot. -/
theorem appendPhase_taskCount (d : DraggedTask) (toSectionId toColumnId : String) (b : Board) :
    taskCount (appendPhase d toSectionId toColumnId b) =
      taskCount b + destSlots toSectionId toColumnId b := by
  unfold taskCount appendPhase destSlots
  rw [List.map_map, ← List.sum_map_add]
  apply congrArg List.sum
  apply List.map_congr_left
  intro s _
  by_cases hid : s.id = toSectionId
  · simp only [Function.comp_apply, if_pos hid]
    rw [List.map_map, ← List.sum_map_add]
    apply congrArg List.sum
    apply List.map_congr_left
    intro c _
    by_cases hcid : c.id = toColumnId <;> simp [hcid]
  · simp [hid]

/-- The append phase adds one occurrence of the dragged id per target slot. -/
theorem appendPhase_idCount (d : DraggedTask) (toSectionId toColumnId : String) (b : Board) :
    idCount d.task.id (appendPhase d toSectionId toColumnId b) =
      idCount d.task.id b + destSlots toSectionId toColumnId b := by
  unfold idCount appendPhase destSlots
  rw [List.map_map, ← List.sum_map_add]
  apply congrArg List.sum
  apply List.map_congr_left
  intro s _
  by_cases hid : s.id = toSectionId
  · simp only [Function.comp_apply, if_pos hid]
    rw [List.map_map, ← List.sum_map_add]
    apply congrArg List.sum
    apply List.map_congr_left
    intro c _
    by_cases hcid : c.id = toColumnId <;> simp [hcid, List.countP_append]
  · simp [hid]

/-- When an id occurs nowhere, no task anywhere carries it. -/
theorem idCount_zero_no_task (tid : String) (b : Board) (h : idCount tid b = 0) :
    ∀ s ∈ b, ∀ c ∈ s.columns, ∀ t ∈ c.tasks, ¬(t.id = tid) := by
  intro s hsi c hci t hti
  unfold idCount at h
  rw [List.sum_eq_zero_iff] at h
  have hsec := h _ (List.mem_map_of_mem _ hsi)
  rw [List.sum_eq_zero_iff] at hsec
  have hcol := hsec _ (List.mem_map_of_mem _ hci)
  rw [List.countP_eq_zero] at hcol
  intro heq
  have := hcol t hti
  simp [heq] at this

/-- After removing the only occurrence, the append phase leaves the dragged
id in exactly the target column slots. -/
theorem appendPhase_colsWithId (d : DraggedTask) (toSectionId toColumnId : String) (b : Board)
    (h : idCount d.task.id b = 0) :
    colsWithId d.task.id (appendPhase d toSectionId toColumnId b) =
      destSlots toSectionId toColumnId b := by
  have hno := idCount_zero_no_task d.task.id b h
  unfold colsWithId appendPhase destSlots
  rw [List.map_map]
  apply congrArg List.sum
  apply List.map_congr_left
  intro s hsi
  by_cases hid : s.id = toSectionId
  · simp only [Function.comp_apply, if_pos hid]
    rw [List.map_map]
    apply congrArg List.sum
    apply List.map_congr_left
    intro c hci
    by_cases hcid : c.id = toColumnId
    · simp [hcid, List.any_append]
      exact ⟨d.task, Or.inr rfl, rfl⟩
    · simp only [if_neg hcid]
      simp [hcid]
      intro t hti
      exact hno s hsi c hci t hti
  · simp only [Function.comp_apply, if_neg hid]
    rw [List.sum_eq_zero_iff]
    intro x hx
    obtain ⟨c, hci, rfl⟩ := List.mem_map.mp hx
    simp
    intro t hti
    exact hno s hsi c hci t hti

/-- Claim C1: when the dragged task's id occurs exactly once on the board,
in the drop's source column, and the drop target denotes exactly one
column, `handleDrop` preserves the total task count and afterwards the
moved task's id appears in exactly one column (and exactly once). -/
theorem handleDrop_conservative (d : DraggedTask) (toSectionId toColumnId : String) (b : Board)
    (h1 : idCount d.task.id b = 1)
    (h2 : srcHits d b = 1)
    (h3 : destSlots toSectionId toColumnId b = 1) :
    taskCount (handleDrop d toSectionId toColumnId b) = taskCount b ∧
    colsWithId d.task.id (handleDrop d toSectionId toColumnId b) = 1 ∧
    idCount d.task.id (handleDrop d toSectionId toColumnId b) = 1 := by
  rw [handleDrop_eq_phases]
  have e1 := removePhase_taskCount d b
  have e2 := removePhase_idCount d b
  have e3 := removePhase_destSlots d toSectionId toColumnId b
  have e4 := appendPhase_taskCount d toSectionId toColumnId (removePhase d b)
  have e5 := appendPhase_idCount d toSectionId toColumnId (removePhase d b)
  have h0 : idCount d.task.id (removePhase d b) = 0 := by omega
  have e6 := appendPhase_colsWithId d toSectionId toColumnId (removePhase d b) h0
  refine ⟨by omega, by omega, by omega⟩

theorem handleDrop_conservative_witness :
    taskCount (handleDrop straysDrag "2" "c4" initialSections) = taskCount initialSections ∧
    colsWithId "t1" (handleDrop straysDrag "2" "c4" initialSections) = 1 ∧
    idCount "t1" (handleDrop straysDrag "2" "c4" initialSections) = 1 :=
  handleDrop_conservative straysDrag "2" "c4" initialSections (by decide) (by decide) (by decide)

/-! ### C4: id uniqueness under creation operations -/

/-- One creation call, carrying the `Date.now()` value the handler reads. -/
inductive CreateOp where
  | addSectionOp (now : Nat)
  | addColumnOp (sectionId : String) (now : Nat)
  | addTaskOp (sectionId columnId title : String) (now : Nat)
deriving DecidableEq, Repr

/-- Run one creation handler. -/
def applyCreate : CreateOp → Board → Board
  | .addSectionOp now, b => addSection now b
  | .addColumnOp sid now, b => addColumn sid now b
  | .addTaskOp sid cid title now, b => addTask sid cid title now b

/-- Run a session's worth of creation handlers in order. -/
def applyCreates (ops : List CreateOp) (b : Board) : Board :=
  ops.foldl (fun b op => applyCreate op b) b

/-- All section ids of the board, in order. -/
def sectionIds (b : Board) : List String := b.map (·.id)

/-- The column ids stored in one section. -/
def secColumnIds (s : Section) : List String := s.columns.map (·.id)

/-- All column ids of the board. -/
def columnIds (b : Board) : List String := (b.map secColumnIds).flatten

/-- The task ids stored in one section. -/
def secTaskIds (s : Section) : List String := (s.columns.map fun c => c.tasks.map (·.id)).flatten

/-- All task ids of the board. -/
def taskIds (b : Board) : List String := (b.map secTaskIds).flatten

/-- The spec's invariant: ids are unique within their kind across the board. -/
def UniqueIds (b : Board) : Prop :=
  (sectionIds b).Nodup ∧ (columnIds b).Nodup ∧ (taskIds b).Nodup

instance (b : Board) : Decidable (UniqueIds b) := by
  unfold UniqueIds
  infer_instance

/-- Section ids a creation generates (`Date.now().toString()`). -/
def genSectionIds : CreateOp → List String
  | .addSectionOp now => [toString now]
  | _ => []

/-- Column ids a creation generates (`col-${Date.now()}`). -/
def genColumnIds : CreateOp → List String
  | .addSectionOp now => ["col-" ++ toString now]
  | .addColumnOp _ now => ["col-" ++ toString now]
  | _ => []

/-- Task ids a creation generates (`task-${Date.now()}`). -/
def genTaskIds : CreateOp → List String
  | .addTaskOp _ _ _ now => ["task-" ++ toString now]
  | _ => []

/-- Freshness of a session: the board's existing ids together with every id
the session would generate are pairwise distinct, kind by kind.  Two
creations sharing a `Date.now()` millisecond violate this. -/
def FreshIds (b : Board) (ops : List CreateOp) : Prop :=
  (sectionIds b ++ (ops.map genSectionIds).flatten).Nodup ∧
  (columnIds b ++ (ops.map genColumnIds).flatten).Nodup ∧
  (taskIds b ++ (ops.map genTaskIds).flatten).Nodup

/-- Flattening pointwise-appended lists permutes to appending the flattens. -/
theorem flatten_map_append {α β : Type} (f g : α → List β) (l : List α) :
    ((l.map fun a => f a ++ g a).flatten).Perm ((l.map f).flatten ++ (l.map g).flatten) := by
  induction l with
  | nil => simp
  | cons a as ih =>
    simp only [List.map_cons, List.flatten_cons, List.append_assoc]
    apply List.Perm.append_left (f a)
    calc (g a ++ (as.map fun a => f a ++ g a).flatten).Perm
          (g a ++ ((as.map f).flatten ++ (as.map g).flatten)) := List.Perm.append_left _ ih
      _ = (g a ++ (as.map f).flatten) ++ (as.map g).flatten := by rw [List.append_assoc]
      _ |>.Perm (((as.map f).flatten ++ g a) ++ (as.map g).flatten) :=
          (List.perm_append_comm).append (List.Perm.refl _)
      _ = (as.map f).flatten ++ (g a ++ (as.map g).flatten) := by rw [List.append_assoc]

/-- Flattening pointwise-permuted lists gives permuted flattens. -/
theorem flatten_congr_perm {α β : Type} (l : List α) (f g : α → List β)
    (h : ∀ a ∈ l, (f a).Perm (g a)) :
    ((l.map f).flatten).Perm ((l.map g).flatten) := by
  induction l with
  | nil => simp
  | cons a as ih =>
    simp only [List.map_cons, List.flatten_cons]
    exact (h a (List.mem_cons_self a as)).append (ih fun x hx => h x (List.mem_cons_of_mem a hx))

/-- Flattening guarded replicated singletons is one replicated list. -/
theorem flatten_ite_replicate {α β : Type} (l : List α) (q : α → Prop) [DecidablePred q]
    (k : α → Nat) (x : β) :
    ((l.map fun a => if q a then List.replicate (k a) x else []).flatten) =
      List.replicate ((l.map fun a => if q a then k a else 0).sum) x := by
  induction l with
  | nil => simp
  | cons a as ih =>
    simp only [List.map_cons, List.flatten_cons, List.sum_cons]
    by_cases hq : q a
    · rw [if_pos hq, if_pos hq, ih, List.replicate_add]
    · rw [if_neg hq, if_neg hq, ih]
      simp

/-- In a duplicate-free list, at most one element equals any given value. -/
theorem nodup_countP_le_one {α : Type} [DecidableEq α] (l : List α) (h : l.Nodup) (a : α) :
    l.countP (fun x => decide (x = a)) ≤ 1 := by
  induction l with
  | nil => simp
  | cons x xs ih =>
    rw [List.nodup_cons] at h
    rw [List.countP_cons]
    by_cases hxa : x = a
    · have hz : xs.countP (fun y => decide (y = a)) = 0 := by
        apply List.countP_eq_zero.mpr
        intro y hy
        simp only [decide_eq_true_eq]
        intro hya
        exact h.1 (by rw [← hxa] at hya; rw [hya] at hy; exact hy)
      simp [hxa, hz]
    · have hd : (decide (x = a)) = false := by simp [hxa]
      simp only [hd]
      simpa using ih h.2

/-- Short replicated lists embed in the singleton. -/
theorem replicate_le_one_sublist {β : Type} (x : β) (m : Nat) (hm : m ≤ 1) :
    (List.replicate m x).Sublist [x] := by
  interval_cases m
  · exact List.nil_sublist _
  · simp

/-- Transport of freshness through one step: if the ids after a step permute
to the old ids plus a sublist of the generated ids, duplicates cannot
appear. -/
theorem ids_step (after base e gen rest : List String)
    (hperm : after.Perm (base ++ e)) (hsub : e.Sublist gen)
    (hbig : (base ++ (gen ++ rest)).Nodup) :
    (after ++ rest).Nodup := by
  have h1 : (after ++ rest).Perm (base ++ e ++ rest) := hperm.append (List.Perm.refl rest)
  have h2 : (base ++ e ++ rest).Sublist (base ++ (gen ++ rest)) := by
    rw [List.append_assoc]
    exact ((hsub.append_right rest).append_left base)
  exact h1.symm.nodup ((h2.nodup) hbig)

/-- Counting by a guard equals counting the guard's decisions. -/
theorem sum_ite_one_eq_countP {α : Type} (l : List α) (q : α → Prop) [DecidablePred q] :
    (l.map fun a => if q a then 1 else 0).sum = l.countP fun a => decide (q a) := by
  induction l with
  | nil => simp
  | cons a as ih =>
    rw [List.map_cons, List.sum_cons, List.countP_cons, ih]
    by_cases hq : q a
    · simp [hq]
      omega
    · simp [hq]

/-- One creation step: every id list after the step permutes to the old
ids plus a sublist of the step's generated ids. -/
theorem applyCreate_ids (op : CreateOp) (b : Board) (hu : UniqueIds b) :
    ∃ e1 e2 e3 : List String,
      (sectionIds (applyCreate op b)).Perm (sectionIds b ++ e1) ∧ e1.Sublist (genSectionIds op) ∧
      (columnIds (applyCreate op b)).Perm (columnIds b ++ e2) ∧ e2.Sublist (genColumnIds op) ∧
      (taskIds (applyCreate op b)).Perm (taskIds b ++ e3) ∧ e3.Sublist (genTaskIds op) := by
  cases op with
  | addSectionOp now =>
    refine ⟨[toString now], ["col-" ++ toString now], [], ?_, List.Sublist.refl _, ?_,
      List.Sublist.refl _, ?_, List.nil_sublist _⟩
    · have h : sectionIds (applyCreate (.addSectionOp now) b) = sectionIds b ++ [toString now] := by
        simp [applyCreate, addSection, sectionIds]
      rw [h]
    · have h : columnIds (applyCreate (.addSectionOp now) b) =
          columnIds b ++ ["col-" ++ toString now] := by
        simp [applyCreate, addSection, columnIds, secColumnIds, newColumn]
      rw [h]
    · have h : taskIds (applyCreate (.addSectionOp now) b) = taskIds b := by
        simp [applyCreate, addSection, taskIds, secTaskIds, newColumn]
      rw [h, List.append_nil]
  | addColumnOp sid now =>
    refine ⟨[], List.replicate ((sectionIds b).countP fun x => decide (x = sid))
        ("col-" ++ toString now), [], ?_, List.nil_sublist _, ?_, ?_, ?_, List.nil_sublist _⟩
    · have h : sectionIds (applyCreate (.addColumnOp sid now) b) = sectionIds b := by
        simp only [applyCreate, addColumn, sectionIds, List.map_map]
        apply List.map_congr_left
        intro s _
        by_cases hid : s.id = sid <;> simp [hid]
      rw [h, List.append_nil]
    · have h : columnIds (applyCreate (.addColumnOp sid now) b) =
          ((b.map fun s => secColumnIds s ++
            (if s.id = sid then ["col-" ++ toString now] else [])).flatten) := by
        simp only [applyCreate, addColumn, columnIds, List.map_map]
        apply congrArg List.flatten
        apply List.map_congr_left
        intro s _
        by_cases hid : s.id = sid <;> simp [hid, secColumnIds, newColumn]
      rw [h]
      refine (flatten_map_append _ _ b).trans ?_
      have h2 : ((b.map fun s => if s.id = sid then ["col-" ++ toString now] else []).flatten) =
          List.replicate ((sectionIds b).countP fun x => decide (x = sid))
            ("col-" ++ toString now) := by
        have h3 : ∀ s : Section,
            (if s.id = sid then ["col-" ++ toString now] else []) =
              (if s.id = sid then List.replicate 1 ("col-" ++ toString now) else []) := by
          intro s
          by_cases hid : s.id = sid <;> simp [hid]
        simp only [h3]
        rw [flatten_ite_replicate, sum_ite_one_eq_countP, sectionIds, List.countP_map]
        rfl
      rw [h2]
      exact List.Perm.refl _
    · exact replicate_le_one_sublist _ _ (nodup_countP_le_one (sectionIds b) hu.1 sid)
    · have h : taskIds (applyCreate (.addColumnOp sid now) b) = taskIds b := by
        simp only [applyCreate, addColumn, taskIds, List.map_map]
        apply congrArg List.flatten
        apply List.map_congr_left
        intro s _
        by_cases hid : s.id = sid <;> simp [hid, secTaskIds, newColumn]
      rw [h, List.append_nil]
  | addTaskOp sid cid title now =>
    by_cases hblank : jsTrim title ≠ ""
    · refine ⟨[], [], List.replicate ((b.map fun s =>
          if s.id = sid then s.columns.countP (fun c => decide (c.id = cid)) else 0).sum)
          ("task-" ++ toString now), ?_, List.nil_sublist _, ?_, List.nil_sublist _, ?_, ?_⟩
      · have h : sectionIds (applyCreate (.addTaskOp sid cid title now) b) = sectionIds b := by
          simp only [applyCreate, addTask, if_pos hblank, sectionIds, List.map_map]
          apply List.map_congr_left
          intro s _
          by_cases hid : s.id = sid <;> simp [hid]
        rw [h, List.append_nil]
      · have h : columnIds (applyCreate (.addTaskOp sid cid title now) b) = columnIds b := by
          simp only [applyCreate, addTask, if_pos hblank, columnIds, List.map_map]
          apply congrArg List.flatten
          apply List.map_congr_left
          intro s _
          simp only [Function.comp_apply]
          by_cases hid : s.id = sid
          · simp only [if_pos hid, secColumnIds, List.map_map]
            apply List.map_congr_left
            intro c _
            by_cases hcid : c.id = cid <;> simp [hcid]
          · simp [hid]
        rw [h, List.append_nil]
      · have h : taskIds (applyCreate (.addTaskOp sid cid title now) b) =
            ((b.map fun s => secTaskIds ((fun s =>
              if s.id = sid then
                { s with columns := s.columns.map fun col =>
                    if col.id = cid then { col with tasks := col.tasks ++ [newTask now title] }
                    else col }
              else s) s)).flatten) := by
          simp [applyCreate, addTask, if_pos hblank, taskIds, List.map_map, Function.comp_def]
        rw [h]
        have hsec : ∀ s ∈ b, (secTaskIds ((fun s =>
            if s.id = sid then
              { s with columns := s.columns.map fun col =>
                  if col.id = cid then { col with tasks := col.tasks ++ [newTask now title] }
                  else col }
            else s) s)).Perm
            (secTaskIds s ++ (if s.id = sid then
              List.replicate (s.columns.countP fun c => decide (c.id = cid))
                ("task-" ++ toString now) else [])) := by
          intro s _
          by_cases hid : s.id = sid
          · simp only [if_pos hid]
            have hcols : secTaskIds { s with columns := s.columns.map fun col =>
                if col.id = cid then { col with tasks := col.tasks ++ [newTask now title] }
                else col } =
                ((s.columns.map fun c => (c.tasks.map (·.id)) ++
                  (if c.id = cid then ["task-" ++ toString now] else [])).flatten) := by
              simp only [secTaskIds, List.map_map]
              apply congrArg List.flatten
              apply List.map_congr_left
              intro c _
              by_cases hcid : c.id = cid <;> simp [hcid, newTask]
            rw [hcols]
            refine (flatten_map_append _ _ s.columns).trans ?_
            have h4 : ∀ c : Column,
                (if c.id = cid then ["task-" ++ toString now] else []) =
                  (if c.id = cid then List.replicate 1 ("task-" ++ toString now) else []) := by
              intro c
              by_cases hcid : c.id = cid <;> simp [hcid]
            simp only [h4]
            rw [flatten_ite_replicate, sum_ite_one_eq_countP]
            exact List.Perm.refl _
          · simp [hid, secTaskIds]
        refine (flatten_congr_perm b _ _ hsec).trans ?_
        refine (flatten_map_append _ _ b).trans ?_
        rw [flatten_ite_replicate]
        exact List.Perm.refl _
      · apply replicate_le_one_sublist
        have hb1 : ((b.map fun s =>
            if s.id = sid then s.columns.countP (fun c => decide (c.id = cid)) else 0).sum) ≤
            ((b.map fun s => s.columns.countP (fun c => decide (c.id = cid))).sum) := by
          apply List.sum_le_sum
          intro s _
          by_cases hid : s.id = sid <;> simp [hid]
        have hb2 : ((b.map fun s => s.columns.countP (fun c => decide (c.id = cid))).sum) =
            (columnIds b).countP fun x => decide (x = cid) := by
          rw [columnIds, List.countP_flatten, List.map_map]
          apply congrArg List.sum
          apply List.map_congr_left
          intro s _
          simp only [Function.comp_apply, secColumnIds, List.countP_map]
          rfl
        have hb3 := nodup_countP_le_one (columnIds b) hu.2.1 cid
        omega
    · rw [not_not] at hblank
      refine ⟨[], [], [], ?_, List.nil_sublist _, ?_, List.nil_sublist _, ?_, List.nil_sublist _⟩ <;>
        · have h : applyCreate (.addTaskOp sid cid title now) b = b := by
            simp [applyCreate, addTask, hblank]
          rw [h, List.append_nil]

instance (b : Board) (ops : List CreateOp) : Decidable (FreshIds b ops) := by
  unfold FreshIds
  infer_instance

/-- Claim C4 as amended: starting from a board whose ids are unique within
their kind, a session of creation operations keeps them unique, provided
the ids the session generates are fresh (`FreshIds`): pairwise distinct and
absent from the board.  Two creations in the same `Date.now()` millisecond
violate that hypothesis — the counterexample shows uniqueness then fails. -/
theorem creations_preserve_unique (ops : List CreateOp) (b : Board)
    (hu : UniqueIds b) (hf : FreshIds b ops) :
    UniqueIds (applyCreates ops b) := by
  induction ops generalizing b with
  | nil => simpa [applyCreates] using hu
  | cons op rest ih =>
    obtain ⟨e1, e2, e3, hp1, hs1, hp2, hs2, hp3, hs3⟩ := applyCreate_ids op b hu
    obtain ⟨hfs, hfc, hft⟩ := hf
    simp only [List.map_cons, List.flatten_cons, List.append_assoc] at hfs hfc hft
    have h1 := ids_step _ _ _ _ _ hp1 hs1 hfs
    have h2 := ids_step _ _ _ _ _ hp2 hs2 hfc
    have h3 := ids_step _ _ _ _ _ hp3 hs3 hft
    have hu2 : UniqueIds (applyCreate op b) :=
      ⟨h1.of_append_left, h2.of_append_left, h3.of_append_left⟩
    exact ih (applyCreate op b) hu2 ⟨h1, h2, h3⟩

/-- Claim C4 counterexample: from the empty board (trivially unique ids),
two `addSection` calls that read the same `Date.now()` millisecond produce
two sections with the same id — uniqueness fails, so id uniqueness does not
hold for every sequence of creation operations. -/
theorem creations_can_collide :
    UniqueIds ([] : Board) ∧
    ¬ UniqueIds (applyCreates [CreateOp.addSectionOp 5, CreateOp.addSectionOp 5] []) := by
  exact ⟨by decide, by decide⟩

theorem creations_preserve_unique_witness :
    UniqueIds (applyCreates [CreateOp.addSectionOp 100, CreateOp.addColumnOp "1" 101,
      CreateOp.addTaskOp "1" "c1" "New item" 102] initialSections) :=
  creations_preserve_unique _ initialSections (by decide) (by decide)

/-! ### JSON values, `JSON.stringify(·, null, 2)` and `JSON.parse`

`exportData` serializes the sections array with `JSON.stringify(sections,
null, 2)`; `importData` runs `JSON.parse` on the file text and accepts the
value only when its top level is an array.  Both builtins are embedded
here: `Json` is the value universe (numbers keep their lexeme — the export
never produces one), `renderJson` is the pretty-printer with two-space
indentation, and `parseVal` is a whitespace-skipping recursive-descent
parser, written with a fuel argument for termination (real JSON combines
surrogate-pair escapes into one code point; the embedding treats each
`\uXXXX` escape as one scalar, which covers everything the export emits). -/

inductive Json where
  | str (s : String)
  | boolVal (b : Bool)
  | numVal (raw : String)
  | nullVal
  | arr (elems : List Json)
  | obj (fields : List (String × Json))

/-- Lowercase hex digit, as `JSON.stringify` emits in `\u00xx` escapes. -/
def hexDigit (n : Nat) : Char :=
  if n < 10 then Char.ofNat (48 + n) else Char.ofNat (87 + n)

/-- How `JSON.stringify` escapes one character inside a string literal. -/
def escapeChar (c : Char) : List Char :=
  if c = '"' then ['\\', '"']
  else if c = '\\' then ['\\', '\\']
  else if c = '\x08' then ['\\', 'b']
  else if c = '\x09' then ['\\', 't']
  else if c = '\x0a' then ['\\', 'n']
  else if c = '\x0c' then ['\\', 'f']
  else if c = '\x0d' then ['\\', 'r']
  else if c.toNat < 32 then ['\\', 'u', '0', '0', hexDigit (c.toNat / 16), hexDigit (c.toNat % 16)]
  else [c]

/-- Escape a whole string body. -/
def escapeString (cs : List Char) : List Char := (cs.map escapeChar).flatten

/-- A quoted, escaped JSON string literal. -/
def renderStringChars (s : String) : List Char := '"' :: (escapeString s.data ++ ['"'])

/-- The two-space indentation `JSON.stringify(·, null, 2)` uses. -/
def indent (d : Nat) : List Char := List.replicate (2 * d) ' '

mutual

/-- Printer for `JSON.stringify(v, null, 2)` at nesting depth `d`. -/
def renderJson : Json → Nat → List Char
  | .str s, _ => renderStringChars s
  | .boolVal b, _ => if b then ['t', 'r', 'u', 'e'] else ['f', 'a', 'l', 's', 'e']
  | .numVal raw, _ => raw.data
  | .nullVal, _ => ['n', 'u', 'l', 'l']
  | .arr [], _ => ['[', ']']
  | .arr (v :: vs), d =>
    '[' :: '\n' :: (renderElemsR (v :: vs) (d + 1) ++ '\n' :: (indent d ++ [']']))
  | .obj [], _ => ['\x7b', '\x7d']
  | .obj (f :: fs), d =>
    '\x7b' :: '\n' :: (renderFieldsR (f :: fs) (d + 1) ++ '\n' :: (indent d ++ ['\x7d']))

/-- Array items, one per line, separated by `",\n"`. -/
def renderElemsR : List Json → Nat → List Char
  | [], _ => []
  | [v], d => indent d ++ renderJson v d
  | v :: v2 :: vs, d =>
    indent d ++ renderJson v d ++ ',' :: '\n' :: renderElemsR (v2 :: vs) d

/-- Object entries `"key": value`, one per line, separated by `",\n"`. -/
def renderFieldsR : List (String × Json) → Nat → List Char
  | [], _ => []
  | [(k, v)], d => indent d ++ renderStringChars k ++ ':' :: ' ' :: renderJson v d
  | (k, v) :: f2 :: fs, d =>
    indent d ++ renderStringChars k ++ ':' :: ' ' :: renderJson v d ++
      ',' :: '\n' :: renderFieldsR (f2 :: fs) d

end

/-- The whitespace `JSON.parse` skips between tokens. -/
def isWsChar (c : Char) : Bool := c == ' ' || c == '\t' || c == '\n' || c == '\r'

/-- Drop token-separating whitespace. -/
def skipWs (cs : List Char) : List Char := cs.dropWhile isWsChar

/-- Value of one hex digit in a `\uXXXX` escape. -/
def hexVal (c : Char) : Option Nat :=
  if '0' ≤ c ∧ c ≤ '9' then some (c.toNat - 48)
  else if 'a' ≤ c ∧ c ≤ 'f' then some (c.toNat - 87)
  else if 'A' ≤ c ∧ c ≤ 'F' then some (c.toNat - 55)
  else none

/-- Parse a string body up to the closing quote, decoding escapes. -/
def parseStringBody : List Char → Option (List Char × List Char)
  | [] => none
  | c :: rest =>
    if c = '"' then some ([], rest)
    else if c = '\\' then
      match rest with
      | [] => none
      | e :: rest2 =>
        if e = '"' then (parseStringBody rest2).map fun p => ('"' :: p.1, p.2)
        else if e = '\\' then (parseStringBody rest2).map fun p => ('\\' :: p.1, p.2)
        else if e = '/' then (parseStringBody rest2).map fun p => ('/' :: p.1, p.2)
        else if e = 'b' then (parseStringBody rest2).map fun p => ('\x08' :: p.1, p.2)
        else if e = 'f' then (parseStringBody rest2).map fun p => ('\x0c' :: p.1, p.2)
        else if e = 'n' then (parseStringBody rest2).map fun p => ('\x0a' :: p.1, p.2)
        else if e = 'r' then (parseStringBody rest2).map fun p => ('\x0d' :: p.1, p.2)
        else if e = 't' then (parseStringBody rest2).map fun p => ('\x09' :: p.1, p.2)
        else if e = 'u' then
          match rest2 with
          | h1 :: h2 :: h3 :: h4 :: rest3 =>
            match hexVal h1, hexVal h2, hexVal h3, hexVal h4 with
            | some a, some b, some c2, some d2 =>
              (parseStringBody rest3).map fun p =>
                (Char.ofNat (4096 * a + 256 * b + 16 * c2 + d2) :: p.1, p.2)
            | _, _, _, _ => none
          | _ => none
        else none
    else if c.toNat < 32 then none
    else (parseStringBody rest).map fun p => (c :: p.1, p.2)

/-- The exponent suffix of a JSON number; `pre` is the lexeme so far. -/
def parseExpPart (pre : List Char) (cs : List Char) : Option (List Char × List Char) :=
  match cs with
  | e :: rest =>
    if e = 'e' ∨ e = 'E' then
      let signAndRest : List Char × List Char :=
        match rest with
        | '+' :: r => (['+'], r)
        | '-' :: r => (['-'], r)
        | _ => ([], rest)
      match signAndRest.2 with
      | d :: _ =>
        if d.isDigit then
          some (pre ++ e :: (signAndRest.1 ++ signAndRest.2.takeWhile (·.isDigit)),
            signAndRest.2.dropWhile (·.isDigit))
        else none
      | [] => none
    else some (pre, cs)
  | [] => some (pre, [])

/-- The fraction suffix of a JSON number. -/
def parseFracPart (pre : List Char) (cs : List Char) : Option (List Char × List Char) :=
  match cs with
  | '.' :: rest =>
    match rest with
    | d :: _ =>
      if d.isDigit then
        parseExpPart (pre ++ '.' :: rest.takeWhile (·.isDigit)) (rest.dropWhile (·.isDigit))
      else none
    | [] => none
  | _ => parseExpPart pre cs

/-- A JSON number lexeme: `-?(0|[1-9][0-9]*)(\.[0-9]+)?([eE][+-]?[0-9]+)?`. -/
def parseNumber (cs : List Char) : Option (List Char × List Char) :=
  let negAndRest : List Char × List Char :=
    match cs with
    | '-' :: r => (['-'], r)
    | _ => ([], cs)
  match negAndRest.2 with
  | c :: rest =>
    if c = '0' then
      match rest with
      | d :: _ =>
        if d.isDigit then none
        else parseFracPart (negAndRest.1 ++ ['0']) rest
      | [] => parseFracPart (negAndRest.1 ++ ['0']) []
    else if c.isDigit then
      parseFracPart (negAndRest.1 ++ c :: rest.takeWhile (·.isDigit))
        (rest.dropWhile (·.isDigit))
    else none
  | [] => none

mutual

/-- One `JSON.parse` value; the fuel only bounds recursion depth. -/
def parseVal : Nat → List Char → Option (Json × List Char)
  | 0, _ => none
  | fuel + 1, cs =>
    match skipWs cs with
    | '"' :: rest => (parseStringBody rest).map fun p => (Json.str ⟨p.1⟩, p.2)
    | 't' :: 'r' :: 'u' :: 'e' :: rest => some (.boolVal true, rest)
    | 'f' :: 'a' :: 'l' :: 's' :: 'e' :: rest => some (.boolVal false, rest)
    | 'n' :: 'u' :: 'l' :: 'l' :: rest => some (.nullVal, rest)
    | '[' :: rest =>
      if (skipWs rest).head? = some ']' then some (.arr [], (skipWs rest).tail)
      else (parseElems fuel rest).map fun p => (.arr p.1, p.2)
    | '\x7b' :: rest =>
      if (skipWs rest).head? = some '\x7d' then some (.obj [], (skipWs rest).tail)
      else (parseFields fuel rest).map fun p => (.obj p.1, p.2)
    | c :: rest =>
      if c = '-' ∨ c.isDigit then
        (parseNumber (c :: rest)).map fun p => (Json.numVal ⟨p.1⟩, p.2)
      else none
    | [] => none

/-- Array items after `[`: value, then `,` to continue or `]` to stop. -/
def parseElems : Nat → List Char → Option (List Json × List Char)
  | 0, _ => none
  | fuel + 1, cs =>
    match parseVal fuel cs with
    | none => none
    | some (v, rest) =>
      match skipWs rest with
      | ',' :: rest2 => (parseElems fuel rest2).map fun p => (v :: p.1, p.2)
      | ']' :: rest2 => some ([v], rest2)
      | _ => none

/-- Object entries after an opening brace: key, `:`, value, then `,` or a
closing brace. -/
def parseFields : Nat → List Char → Option (List (String × Json) × List Char)
  | 0, _ => none
  | fuel + 1, cs =>
    match skipWs cs with
    | '"' :: rest =>
      match parseStringBody rest with
      | none => none
      | some (k, rest2) =>
        match skipWs rest2 with
        | ':' :: rest3 =>
          match parseVal fuel rest3 with
          | none => none
          | some (v, rest4) =>
            match skipWs rest4 with
            | ',' :: rest5 => (parseFields fuel rest5).map fun p => ((⟨k⟩, v) :: p.1, p.2)
            | '\x7d' :: rest5 => some ([(⟨k⟩, v)], rest5)
            | _ => none
        | _ => none
    | _ => none

end

/-- Entry point of `JSON.parse`: one value, then only trailing whitespace.  The fuel
`2 * length + 2` decreases on every nested parse step while at least one
input character is consumed per two steps, so it never runs out on inputs
the grammar accepts. -/
def parseJson (s : String) : Option Json :=
  match parseVal (2 * s.data.length + 2) s.data with
  | some (v, rest) => if (skipWs rest).isEmpty then some v else none
  | none => none

/-- A task as `JSON.stringify` sees it: `{id, title, completed}`. -/
def taskToJson (t : Task) : Json :=
  .obj [("id", .str t.id), ("title", .str t.title), ("completed", .boolVal t.completed)]

/-- A column as `{id, title, tasks}`. -/
def columnToJson (c : Column) : Json :=
  .obj [("id", .str c.id), ("title", .str c.title), ("tasks", .arr (c.tasks.map taskToJson))]

/-- A section as `{id, title, columns}`. -/
def sectionToJson (s : Section) : Json :=
  .obj [("id", .str s.id), ("title", .str s.title), ("columns", .arr (s.columns.map columnToJson))]

/-- The whole board as the top-level JSON array. -/
def boardToJson (b : Board) : Json := .arr (b.map sectionToJson)

/-- Handler `exportData` (App.tsx lines 337-348): the downloaded file's text is
`JSON.stringify(sections, null, 2)`; the blob / link plumbing is view code. -/
def exportText (sections : Board) : String := ⟨renderJson (boardToJson sections) 0⟩

/-- Is the top-level parsed value an array (`Array.isArray`)? -/
def isArr : Json → Bool
  | .arr _ => true
  | _ => false

/-- Handler `importData` (App.tsx lines 350-372): parse the file text; accept a
top-level array verbatim as the new sections value, otherwise keep the
board and report the matching alert text. -/
def importData (text : String) (sections : Json) : Json × Option String :=
  match parseJson text with
  | some v =>
    if isArr v then (v, none)
    else (sections, some "Invalid JSON format. Please select a valid FocusTask export file.")
  | none => (sections, some "Error reading file. Please select a valid JSON file.")

/-! ### Round-trip lemmas: `parseJson (renderJson v) = v` on export output -/

theorem skipWs_cons_of_not_ws (c : Char) (cs : List Char) (h : isWsChar c = false) :
    skipWs (c :: cs) = c :: cs := by
  simp [skipWs, List.dropWhile_cons, h]

theorem skipWs_append_ws (ws cs : List Char) (h : ∀ c ∈ ws, isWsChar c = true) :
    skipWs (ws ++ cs) = skipWs cs := by
  induction ws with
  | nil => simp
  | cons w ws2 ih =>
    have hw := h w (List.mem_cons_self w ws2)
    simp only [List.cons_append, skipWs, List.dropWhile_cons, hw, if_true]
    exact ih fun c hc => h c (List.mem_cons_of_mem w hc)

theorem indent_all_ws (d : Nat) : ∀ c ∈ indent d, isWsChar c = true := by
  intro c hc
  rw [indent, List.mem_replicate] at hc
  rw [hc.2]
  decide

theorem parseVal_skip_ws (fuel : Nat) (ws cs : List Char) (h : ∀ c ∈ ws, isWsChar c = true) :
    parseVal fuel (ws ++ cs) = parseVal fuel cs := by
  cases fuel with
  | zero => rfl
  | succ f =>
    simp only [parseVal, skipWs_append_ws ws cs h]

theorem hexVal_hexDigit (n : Nat) (h : n < 16) : hexVal (hexDigit n) = some n := by
  interval_cases n <;> decide

theorem parseStringBody_escape (s : List Char) (rest : List Char) :
    parseStringBody (escapeString s ++ '"' :: rest) = some (s, rest) := by
  induction s with
  | nil =>
    rw [show escapeString [] ++ '"' :: rest = '"' :: rest from by simp [escapeString]]
    rw [parseStringBody.eq_def]
    simp
  | cons c cs ih =>
    have hstep : escapeString (c :: cs) ++ '"' :: rest =
        escapeChar c ++ (escapeString cs ++ '"' :: rest) := by
      simp [escapeString]
    rw [hstep]
    by_cases h1 : c = '"'
    · subst h1
      simp only [escapeChar, if_pos rfl, List.cons_append, List.nil_append]
      rw [parseStringBody.eq_def]
      simp [ih]
    by_cases h2 : c = '\\'
    · subst h2
      simp only [escapeChar, if_pos rfl, if_neg h1, List.cons_append, List.nil_append]
      rw [parseStringBody.eq_def]
      simp [ih]
    by_cases h3 : c = '\x08'
    · subst h3
      simp only [escapeChar, if_pos rfl, if_neg h1, if_neg h2, List.cons_append, List.nil_append]
      rw [parseStringBody.eq_def]
      simp [ih]
    by_cases h4 : c = '\x09'
    · subst h4
      simp only [escapeChar, if_pos rfl, if_neg h1, if_neg h2, if_neg h3, List.cons_append,
        List.nil_append]
      rw [parseStringBody.eq_def]
      simp [ih]
    by_cases h5 : c = '\x0a'
    · subst h5
      simp only [escapeChar, if_pos rfl, if_neg h1, if_neg h2, if_neg h3, if_neg h4,
        List.cons_append, List.nil_append]
      rw [parseStringBody.eq_def]
      simp [ih]
    by_cases h6 : c = '\x0c'
    · subst h6
      simp only [escapeChar, if_pos rfl, if_neg h1, if_neg h2, if_neg h3, if_neg h4, if_neg h5,
        List.cons_append, List.nil_append]
      rw [parseStringBody.eq_def]
      simp [ih]
    by_cases h7 : c = '\x0d'
    · subst h7
      simp only [escapeChar, if_pos rfl, if_neg h1, if_neg h2, if_neg h3, if_neg h4, if_neg h5,
        if_neg h6, List.cons_append, List.nil_append]
      rw [parseStringBody.eq_def]
      simp [ih]
    by_cases h8 : c.toNat < 32
    · have e1 : hexVal '0' = some 0 := by decide
      have e2 : hexVal (hexDigit (c.toNat / 16)) = some (c.toNat / 16) :=
        hexVal_hexDigit _ (by omega)
      have e3 : hexVal (hexDigit (c.toNat % 16)) = some (c.toNat % 16) :=
        hexVal_hexDigit _ (by omega)
      have e4 : ∀ n : Nat, n = c.toNat → Char.ofNat n = c := by
        intro n hn
        rw [hn, Char.ofNat_toNat]
      simp only [escapeChar, if_pos h8, if_neg h1, if_neg h2, if_neg h3, if_neg h4, if_neg h5,
        if_neg h6, if_neg h7, List.cons_append, List.nil_append]
      rw [parseStringBody.eq_def]
      simp [e1, e2, e3, ih]
      exact e4 _ (by omega)
    · simp only [escapeChar, if_neg h1, if_neg h2, if_neg h3, if_neg h4, if_neg h5, if_neg h6,
        if_neg h7, if_neg h8, List.cons_append, List.nil_append]
      rw [parseStringBody.eq_def]
      simp [h1, h2, h8, ih]

/-- Property that `v` printed at depth `d` parses back to `v` whatever follows, for every
sufficient fuel (the bound decreases by one per nested parse step while two
steps consume at least one character). -/
def RoundTrips (v : Json) (d : Nat) : Prop :=
  ∀ (rest : List Char) (fuel : Nat),
    2 * (renderJson v d ++ rest).length + 1 ≤ fuel →
    parseVal fuel (renderJson v d ++ rest) = some (v, rest)

theorem roundTrips_str (s : String) (d : Nat) : RoundTrips (.str s) d := by
  intro rest fuel hfuel
  obtain ⟨f, rfl⟩ : ∃ f, fuel = f + 1 := ⟨fuel - 1, by omega⟩
  rw [show renderJson (.str s) d ++ rest = '"' :: (escapeString s.data ++ '"' :: rest) from by
    simp [renderJson, renderStringChars]]
  have hskip : skipWs ('"' :: (escapeString s.data ++ '"' :: rest)) =
      '"' :: (escapeString s.data ++ '"' :: rest) :=
    skipWs_cons_of_not_ws _ _ (by decide)
  rw [parseVal.eq_def]
  simp [hskip, parseStringBody_escape]

theorem roundTrips_bool (b : Bool) (d : Nat) : RoundTrips (.boolVal b) d := by
  intro rest fuel hfuel
  obtain ⟨f, rfl⟩ : ∃ f, fuel = f + 1 := ⟨fuel - 1, by omega⟩
  cases b
  · rw [show renderJson (.boolVal false) d ++ rest =
      'f' :: 'a' :: 'l' :: 's' :: 'e' :: rest from by simp [renderJson]]
    have hskip : skipWs ('f' :: 'a' :: 'l' :: 's' :: 'e' :: rest) =
        'f' :: 'a' :: 'l' :: 's' :: 'e' :: rest :=
      skipWs_cons_of_not_ws _ _ (by decide)
    rw [parseVal.eq_def]
    simp [hskip]
  · rw [show renderJson (.boolVal true) d ++ rest =
      't' :: 'r' :: 'u' :: 'e' :: rest from by simp [renderJson]]
    have hskip : skipWs ('t' :: 'r' :: 'u' :: 'e' :: rest) =
        't' :: 'r' :: 'u' :: 'e' :: rest :=
      skipWs_cons_of_not_ws _ _ (by decide)
    rw [parseVal.eq_def]
    simp [hskip]

theorem parseElems_step (f : Nat) (cs : List Char) (v : Json) (rest1 : List Char)
    (hv : parseVal f cs = some (v, rest1)) :
    parseElems (f + 1) cs =
      match skipWs rest1 with
      | ',' :: rest2 => (parseElems f rest2).map fun p => (v :: p.1, p.2)
      | ']' :: rest2 => some ([v], rest2)
      | _ => none := by
  rw [parseElems.eq_def]
  simp [hv]

theorem parseVal_arr_empty (f : Nat) (rest rest2 : List Char)
    (hy : skipWs rest = ']' :: rest2) :
    parseVal (f + 1) ('[' :: rest) = some (.arr [], rest2) := by
  have hskip : skipWs ('[' :: rest) = '[' :: rest := skipWs_cons_of_not_ws _ _ (by decide)
  rw [parseVal.eq_def]
  simp [hskip, hy]

theorem parseVal_arr_step (f : Nat) (rest : List Char)
    (hne : (skipWs rest).head? ≠ some ']') :
    parseVal (f + 1) ('[' :: rest) = (parseElems f rest).map fun p => (.arr p.1, p.2) := by
  have hskip : skipWs ('[' :: rest) = '[' :: rest := skipWs_cons_of_not_ws _ _ (by decide)
  rw [parseVal.eq_def]
  simp [hskip, hne]

theorem parseVal_obj_empty (f : Nat) (rest rest2 : List Char)
    (hy : skipWs rest = '\x7d' :: rest2) :
    parseVal (f + 1) ('\x7b' :: rest) = some (.obj [], rest2) := by
  have hskip : skipWs ('\x7b' :: rest) = '\x7b' :: rest := skipWs_cons_of_not_ws _ _ (by decide)
  rw [parseVal.eq_def]
  simp [hskip, hy]

theorem parseVal_obj_step (f : Nat) (rest : List Char)
    (hne : (skipWs rest).head? ≠ some '\x7d') :
    parseVal (f + 1) ('\x7b' :: rest) = (parseFields f rest).map fun p => (.obj p.1, p.2) := by
  have hskip : skipWs ('\x7b' :: rest) = '\x7b' :: rest := skipWs_cons_of_not_ws _ _ (by decide)
  rw [parseVal.eq_def]
  simp [hskip, hne]

theorem parseFields_step (f : Nat) (cs kbody k rest2 rest3 : List Char) (v : Json)
    (rest4 : List Char)
    (h1 : skipWs cs = '"' :: kbody) (h2 : parseStringBody kbody = some (k, rest2))
    (h3 : skipWs rest2 = ':' :: rest3) (h4 : parseVal f rest3 = some (v, rest4)) :
    parseFields (f + 1) cs =
      match skipWs rest4 with
      | ',' :: rest5 => (parseFields f rest5).map fun p => ((⟨k⟩, v) :: p.1, p.2)
      | '\x7d' :: rest5 => some ([(⟨k⟩, v)], rest5)
      | _ => none := by
  rw [parseFields.eq_def]
  simp [h1, h2, h3, h4]

/-- Rendered array items (with any leading whitespace) parse back to the
item list, consuming the newline, indentation and closing bracket. -/
theorem rt_elems (d : Nat) (l : List Json) :
    l ≠ [] →
    (∀ v ∈ l, RoundTrips v (d + 1)) →
    ∀ (pre rest : List Char) (fuel : Nat),
      (∀ c ∈ pre, isWsChar c = true) →
      2 * (pre ++ renderElemsR l (d + 1) ++ '\n' :: (indent d ++ ']' :: rest)).length + 2 ≤ fuel →
      parseElems fuel (pre ++ renderElemsR l (d + 1) ++ '\n' :: (indent d ++ ']' :: rest)) =
        some (l, rest) := by
  induction l with
  | nil => intro h; exact absurd rfl h
  | cons v vs ih =>
    intro _ hrt pre rest fuel hpre hfuel
    obtain ⟨f, rfl⟩ : ∃ f, fuel = f + 1 := ⟨fuel - 1, by omega⟩
    have hprews : ∀ c ∈ pre ++ indent (d + 1), isWsChar c = true := by
      intro c hc
      rcases List.mem_append.mp hc with h | h
      · exact hpre c h
      · exact indent_all_ws (d + 1) c h
    cases vs with
    | nil =>
      have hshape : pre ++ renderElemsR [v] (d + 1) ++ '\n' :: (indent d ++ ']' :: rest) =
          (pre ++ indent (d + 1)) ++
            (renderJson v (d + 1) ++ '\n' :: (indent d ++ ']' :: rest)) := by
        simp [renderElemsR, List.append_assoc]
      have hlen : 2 * (renderJson v (d + 1) ++ '\n' :: (indent d ++ ']' :: rest)).length + 1 ≤ f := by
        rw [hshape] at hfuel
        simp only [List.length_append, List.length_cons] at hfuel ⊢
        omega
      have hv : parseVal f (pre ++ renderElemsR [v] (d + 1) ++ '\n' :: (indent d ++ ']' :: rest)) =
          some (v, '\n' :: (indent d ++ ']' :: rest)) := by
        rw [hshape, parseVal_skip_ws f _ _ hprews]
        exact hrt v (List.mem_cons_self v []) _ f hlen
      rw [parseElems_step f _ v _ hv]
      have hskip : skipWs ('\n' :: (indent d ++ ']' :: rest)) = ']' :: rest := by
        rw [show '\n' :: (indent d ++ ']' :: rest) = ('\n' :: indent d) ++ ']' :: rest from by simp]
        rw [skipWs_append_ws _ _ (by
          intro c hc
          rcases List.mem_cons.mp hc with h | h
          · rw [h]; decide
          · exact indent_all_ws d c h)]
        exact skipWs_cons_of_not_ws _ _ (by decide)
      rw [hskip]
      simp
    | cons v2 vs2 =>
      have hshape : pre ++ renderElemsR (v :: v2 :: vs2) (d + 1) ++
            '\n' :: (indent d ++ ']' :: rest) =
          (pre ++ indent (d + 1)) ++
            (renderJson v (d + 1) ++ ',' :: '\n' ::
              (renderElemsR (v2 :: vs2) (d + 1) ++ '\n' :: (indent d ++ ']' :: rest))) := by
        simp [renderElemsR, List.append_assoc]
      have hlen : 2 * (renderJson v (d + 1) ++ ',' :: '\n' ::
          (renderElemsR (v2 :: vs2) (d + 1) ++ '\n' :: (indent d ++ ']' :: rest))).length + 1 ≤ f := by
        rw [hshape] at hfuel
        simp only [List.length_append, List.length_cons] at hfuel ⊢
        omega
      have hv : parseVal f (pre ++ renderElemsR (v :: v2 :: vs2) (d + 1) ++
            '\n' :: (indent d ++ ']' :: rest)) =
          some (v, ',' :: '\n' ::
            (renderElemsR (v2 :: vs2) (d + 1) ++ '\n' :: (indent d ++ ']' :: rest))) := by
        rw [hshape, parseVal_skip_ws f _ _ hprews]
        exact hrt v (List.mem_cons_self v _) _ f hlen
      rw [parseElems_step f _ v _ hv]
      have hskip : skipWs (',' :: '\n' ::
          (renderElemsR (v2 :: vs2) (d + 1) ++ '\n' :: (indent d ++ ']' :: rest))) =
          ',' :: '\n' ::
            (renderElemsR (v2 :: vs2) (d + 1) ++ '\n' :: (indent d ++ ']' :: rest)) :=
        skipWs_cons_of_not_ws _ _ (by decide)
      rw [hskip]
      have hrec : parseElems f ('\n' ::
          (renderElemsR (v2 :: vs2) (d + 1) ++ '\n' :: (indent d ++ ']' :: rest))) =
          some (v2 :: vs2, rest) := by
        have := ih (by simp) (fun w hw => hrt w (List.mem_cons_of_mem v hw)) ['\n'] rest f
          (by intro c hc; simp at hc; rw [hc]; decide)
          (by
            rw [hshape] at hfuel
            simp only [List.length_append, List.length_cons, List.length_nil] at hfuel ⊢
            omega)
        simpa using this
      simp [hrec]

/-- Rendered object entries (with any leading whitespace) parse back to
the field list, consuming the newline, indentation and closing brace. -/
theorem rt_fields (d : Nat) (fs : List (String × Json)) :
    fs ≠ [] →
    (∀ kv ∈ fs, RoundTrips kv.2 (d + 1)) →
    ∀ (pre rest : List Char) (fuel : Nat),
      (∀ c ∈ pre, isWsChar c = true) →
      2 * (pre ++ renderFieldsR fs (d + 1) ++ '\n' :: (indent d ++ '\x7d' :: rest)).length + 2 ≤
        fuel →
      parseFields fuel (pre ++ renderFieldsR fs (d + 1) ++ '\n' :: (indent d ++ '\x7d' :: rest)) =
        some (fs, rest) := by
  induction fs with
  | nil => intro h; exact absurd rfl h
  | cons kv fs2 ih =>
    obtain ⟨k, v⟩ := kv
    intro _ hrt pre rest fuel hpre hfuel
    obtain ⟨f, rfl⟩ : ∃ f, fuel = f + 1 := ⟨fuel - 1, by omega⟩
    have hprews : ∀ c ∈ pre ++ indent (d + 1), isWsChar c = true := by
      intro c hc
      rcases List.mem_append.mp hc with h | h
      · exact hpre c h
      · exact indent_all_ws (d + 1) c h
    cases fs2 with
    | nil =>
      have hshape : pre ++ renderFieldsR [(k, v)] (d + 1) ++
            '\n' :: (indent d ++ '\x7d' :: rest) =
          (pre ++ indent (d + 1)) ++
            ('"' :: (escapeString k.data ++
              '"' :: (':' :: ' ' :: (renderJson v (d + 1) ++
                '\n' :: (indent d ++ '\x7d' :: rest))))) := by
        simp [renderFieldsR, renderStringChars, List.append_assoc]
      rw [hshape]
      have h1 : skipWs ((pre ++ indent (d + 1)) ++
            ('"' :: (escapeString k.data ++
              '"' :: (':' :: ' ' :: (renderJson v (d + 1) ++
                '\n' :: (indent d ++ '\x7d' :: rest)))))) =
          '"' :: (escapeString k.data ++
            '"' :: (':' :: ' ' :: (renderJson v (d + 1) ++
              '\n' :: (indent d ++ '\x7d' :: rest)))) := by
        rw [skipWs_append_ws _ _ hprews]
        exact skipWs_cons_of_not_ws _ _ (by decide)
      have h2 : parseStringBody (escapeString k.data ++
            '"' :: (':' :: ' ' :: (renderJson v (d + 1) ++
              '\n' :: (indent d ++ '\x7d' :: rest)))) =
          some (k.data, ':' :: ' ' :: (renderJson v (d + 1) ++
            '\n' :: (indent d ++ '\x7d' :: rest))) :=
        parseStringBody_escape _ _
      have h3 : skipWs (':' :: ' ' :: (renderJson v (d + 1) ++
            '\n' :: (indent d ++ '\x7d' :: rest))) =
          ':' :: (' ' :: (renderJson v (d + 1) ++ '\n' :: (indent d ++ '\x7d' :: rest))) :=
        skipWs_cons_of_not_ws _ _ (by decide)
      have h4 : parseVal f (' ' :: (renderJson v (d + 1) ++
            '\n' :: (indent d ++ '\x7d' :: rest))) =
          some (v, '\n' :: (indent d ++ '\x7d' :: rest)) := by
        rw [show (' ' :: (renderJson v (d + 1) ++ '\n' :: (indent d ++ '\x7d' :: rest))) =
          [' '] ++ (renderJson v (d + 1) ++ '\n' :: (indent d ++ '\x7d' :: rest)) from rfl]
        rw [parseVal_skip_ws f _ _ (by intro c hc; simp at hc; rw [hc]; decide)]
        apply hrt (k, v) (List.mem_cons_self _ _)
        rw [hshape] at hfuel
        simp only [List.length_append, List.length_cons, List.length_nil] at hfuel ⊢
        omega
      rw [parseFields_step f _ _ _ _ _ _ _ h1 h2 h3 h4]
      have hskip : skipWs ('\n' :: (indent d ++ '\x7d' :: rest)) = '\x7d' :: rest := by
        rw [show '\n' :: (indent d ++ '\x7d' :: rest) =
          ('\n' :: indent d) ++ '\x7d' :: rest from by simp]
        rw [skipWs_append_ws _ _ (by
          intro c hc
          rcases List.mem_cons.mp hc with h | h
          · rw [h]; decide
          · exact indent_all_ws d c h)]
        exact skipWs_cons_of_not_ws _ _ (by decide)
      rw [hskip]
      simp
    | cons kv2 fs3 =>
      have hshape : pre ++ renderFieldsR ((k, v) :: kv2 :: fs3) (d + 1) ++
            '\n' :: (indent d ++ '\x7d' :: rest) =
          (pre ++ indent (d + 1)) ++
            ('"' :: (escapeString k.data ++
              '"' :: (':' :: ' ' :: (renderJson v (d + 1) ++
                ',' :: '\n' :: (renderFieldsR (kv2 :: fs3) (d + 1) ++
                  '\n' :: (indent d ++ '\x7d' :: rest)))))) := by
        simp [renderFieldsR, renderStringChars, List.append_assoc]
      rw [hshape]
      have h1 : skipWs ((pre ++ indent (d + 1)) ++
            ('"' :: (escapeString k.data ++
              '"' :: (':' :: ' ' :: (renderJson v (d + 1) ++
                ',' :: '\n' :: (renderFieldsR (kv2 :: fs3) (d + 1) ++
                  '\n' :: (indent d ++ '\x7d' :: rest))))))) =
          '"' :: (escapeString k.data ++
            '"' :: (':' :: ' ' :: (renderJson v (d + 1) ++
              ',' :: '\n' :: (renderFieldsR (kv2 :: fs3) (d + 1) ++
                '\n' :: (indent d ++ '\x7d' :: rest))))) := by
        rw [skipWs_append_ws _ _ hprews]
        exact skipWs_cons_of_not_ws _ _ (by decide)
      have h2 : parseStringBody (escapeString k.data ++
            '"' :: (':' :: ' ' :: (renderJson v (d + 1) ++
              ',' :: '\n' :: (renderFieldsR (kv2 :: fs3) (d + 1) ++
                '\n' :: (indent d ++ '\x7d' :: rest))))) =
          some (k.data, ':' :: ' ' :: (renderJson v (d + 1) ++
            ',' :: '\n' :: (renderFieldsR (kv2 :: fs3) (d + 1) ++
              '\n' :: (indent d ++ '\x7d' :: rest)))) :=
        parseStringBody_escape _ _
      have h3 : skipWs (':' :: ' ' :: (renderJson v (d + 1) ++
            ',' :: '\n' :: (renderFieldsR (kv2 :: fs3) (d + 1) ++
              '\n' :: (indent d ++ '\x7d' :: rest)))) =
          ':' :: (' ' :: (renderJson v (d + 1) ++
            ',' :: '\n' :: (renderFieldsR (kv2 :: fs3) (d + 1) ++
              '\n' :: (indent d ++ '\x7d' :: rest)))) :=
        skipWs_cons_of_not_ws _ _ (by decide)
      have h4 : parseVal f (' ' :: (renderJson v (d + 1) ++
            ',' :: '\n' :: (renderFieldsR (kv2 :: fs3) (d + 1) ++
              '\n' :: (indent d ++ '\x7d' :: rest)))) =
          some (v, ',' :: '\n' :: (renderFieldsR (kv2 :: fs3) (d + 1) ++
            '\n' :: (indent d ++ '\x7d' :: rest))) := by
        rw [show (' ' :: (renderJson v (d + 1) ++
          ',' :: '\n' :: (renderFieldsR (kv2 :: fs3) (d + 1) ++
            '\n' :: (indent d ++ '\x7d' :: rest)))) =
          [' '] ++ (renderJson v (d + 1) ++
            ',' :: '\n' :: (renderFieldsR (kv2 :: fs3) (d + 1) ++
              '\n' :: (indent d ++ '\x7d' :: rest))) from rfl]
        rw [parseVal_skip_ws f _ _ (by intro c hc; simp at hc; rw [hc]; decide)]
        apply hrt (k, v) (List.mem_cons_self _ _)
        rw [hshape] at hfuel
        simp only [List.length_append, List.length_cons, List.length_nil] at hfuel ⊢
        omega
      rw [parseFields_step f _ _ _ _ _ _ _ h1 h2 h3 h4]
      have hskip : skipWs (',' :: '\n' :: (renderFieldsR (kv2 :: fs3) (d + 1) ++
            '\n' :: (indent d ++ '\x7d' :: rest))) =
          ',' :: '\n' :: (renderFieldsR (kv2 :: fs3) (d + 1) ++
            '\n' :: (indent d ++ '\x7d' :: rest)) :=
        skipWs_cons_of_not_ws _ _ (by decide)
      rw [hskip]
      have hrec : parseFields f ('\n' :: (renderFieldsR (kv2 :: fs3) (d + 1) ++
            '\n' :: (indent d ++ '\x7d' :: rest))) =
          some (kv2 :: fs3, rest) := by
        have := ih (by simp) (fun w hw => hrt w (List.mem_cons_of_mem _ hw)) ['\n'] rest f
          (by intro c hc; simp at hc; rw [hc]; decide)
          (by
            rw [hshape] at hfuel
            simp only [List.length_append, List.length_cons, List.length_nil] at hfuel ⊢
            omega)
        simpa using this
      simp [hrec]

/-- An array whose items round-trip (and start with a plain character, as
every object does) round-trips. -/
theorem roundTrips_arr (l : List Json) (d : Nat)
    (hrt : ∀ v ∈ l, RoundTrips v (d + 1))
    (hstart : ∀ v ∈ l, ∃ c cs2,
      renderJson v (d + 1) = c :: cs2 ∧ isWsChar c = false ∧ c ≠ ']') :
    RoundTrips (.arr l) d := by
  intro rest fuel hfuel
  obtain ⟨f, rfl⟩ : ∃ f, fuel = f + 1 := ⟨fuel - 1, by omega⟩
  cases l with
  | nil =>
    rw [show renderJson (.arr []) d ++ rest = '[' :: ']' :: rest from by simp [renderJson]]
    exact parseVal_arr_empty f _ rest (skipWs_cons_of_not_ws _ _ (by decide))
  | cons v vs =>
    have hshape : renderJson (.arr (v :: vs)) d ++ rest =
        '[' :: ('\n' :: (renderElemsR (v :: vs) (d + 1) ++
          '\n' :: (indent d ++ ']' :: rest))) := by
      simp [renderJson, List.append_assoc]
    rw [hshape]
    obtain ⟨c, cs2, hv0, hcw, hcb⟩ := hstart v (List.mem_cons_self v vs)
    obtain ⟨t, ht⟩ : ∃ t, renderElemsR (v :: vs) (d + 1) =
        indent (d + 1) ++ (renderJson v (d + 1) ++ t) := by
      cases vs with
      | nil => exact ⟨[], by simp [renderElemsR]⟩
      | cons v2 vs2 =>
        exact ⟨',' :: '\n' :: renderElemsR (v2 :: vs2) (d + 1),
          by simp [renderElemsR, List.append_assoc]⟩
    have hne : (skipWs ('\n' :: (renderElemsR (v :: vs) (d + 1) ++
        '\n' :: (indent d ++ ']' :: rest)))).head? ≠ some ']' := by
      rw [show '\n' :: (renderElemsR (v :: vs) (d + 1) ++ '\n' :: (indent d ++ ']' :: rest)) =
        ('\n' :: indent (d + 1)) ++ (renderJson v (d + 1) ++
          (t ++ '\n' :: (indent d ++ ']' :: rest))) from by rw [ht]; simp [List.append_assoc]]
      rw [skipWs_append_ws _ _ (by
        intro w hw
        rcases List.mem_cons.mp hw with h | h
        · rw [h]; decide
        · exact indent_all_ws (d + 1) w h)]
      rw [hv0, List.cons_append, skipWs_cons_of_not_ws _ _ hcw]
      simp [hcb]
    rw [parseVal_arr_step f _ hne]
    have helems := rt_elems d (v :: vs) (by simp) hrt ['\n'] rest f
      (by intro w hw; simp at hw; rw [hw]; decide)
      (by
        rw [hshape] at hfuel
        simp only [List.length_append, List.length_cons, List.length_nil] at hfuel ⊢
        omega)
    rw [show '\n' :: (renderElemsR (v :: vs) (d + 1) ++ '\n' :: (indent d ++ ']' :: rest)) =
      ['\n'] ++ renderElemsR (v :: vs) (d + 1) ++ '\n' :: (indent d ++ ']' :: rest) from by
        simp]
    rw [helems]
    rfl

/-- An object whose values round-trip round-trips. -/
theorem roundTrips_obj (fs : List (String × Json)) (d : Nat)
    (hrt : ∀ kv ∈ fs, RoundTrips kv.2 (d + 1)) :
    RoundTrips (.obj fs) d := by
  intro rest fuel hfuel
  obtain ⟨f, rfl⟩ : ∃ f, fuel = f + 1 := ⟨fuel - 1, by omega⟩
  cases fs with
  | nil =>
    rw [show renderJson (.obj []) d ++ rest = '\x7b' :: '\x7d' :: rest from by simp [renderJson]]
    exact parseVal_obj_empty f _ rest (skipWs_cons_of_not_ws _ _ (by decide))
  | cons kv fs2 =>
    have hshape : renderJson (.obj (kv :: fs2)) d ++ rest =
        '\x7b' :: ('\n' :: (renderFieldsR (kv :: fs2) (d + 1) ++
          '\n' :: (indent d ++ '\x7d' :: rest))) := by
      simp [renderJson, List.append_assoc]
    rw [hshape]
    obtain ⟨t, ht⟩ : ∃ t, renderFieldsR (kv :: fs2) (d + 1) =
        indent (d + 1) ++ ('"' :: t) := by
      obtain ⟨k, v⟩ := kv
      cases fs2 with
      | nil =>
        exact ⟨escapeString k.data ++ '"' :: ':' :: ' ' :: renderJson v (d + 1),
          by simp [renderFieldsR, renderStringChars, List.append_assoc]⟩
      | cons kv2 fs3 =>
        exact ⟨escapeString k.data ++ '"' :: ':' :: ' ' ::
            (renderJson v (d + 1) ++ ',' :: '\n' :: renderFieldsR (kv2 :: fs3) (d + 1)),
          by simp [renderFieldsR, renderStringChars, List.append_assoc]⟩
    have hne : (skipWs ('\n' :: (renderFieldsR (kv :: fs2) (d + 1) ++
        '\n' :: (indent d ++ '\x7d' :: rest)))).head? ≠ some '\x7d' := by
      rw [show '\n' :: (renderFieldsR (kv :: fs2) (d + 1) ++
          '\n' :: (indent d ++ '\x7d' :: rest)) =
        ('\n' :: indent (d + 1)) ++ ('"' :: (t ++ '\n' :: (indent d ++ '\x7d' :: rest))) from by
          rw [ht]; simp [List.append_assoc]]
      rw [skipWs_append_ws _ _ (by
        intro w hw
        rcases List.mem_cons.mp hw with h | h
        · rw [h]; decide
        · exact indent_all_ws (d + 1) w h)]
      rw [skipWs_cons_of_not_ws _ _ (by decide)]
      simp
    rw [parseVal_obj_step f _ hne]
    have hfields := rt_fields d (kv :: fs2) (by simp) hrt ['\n'] rest f
      (by intro w hw; simp at hw; rw [hw]; decide)
      (by
        rw [hshape] at hfuel
        simp only [List.length_append, List.length_cons, List.length_nil] at hfuel ⊢
        omega)
    rw [show '\n' :: (renderFieldsR (kv :: fs2) (d + 1) ++
        '\n' :: (indent d ++ '\x7d' :: rest)) =
      ['\n'] ++ renderFieldsR (kv :: fs2) (d + 1) ++
        '\n' :: (indent d ++ '\x7d' :: rest) from by simp]
    rw [hfields]
    rfl

/-- Rendered objects begin with an opening brace: not whitespace, not `]`. -/
theorem obj_starts_plain (fs : List (String × Json)) (d : Nat) :
    ∃ c cs2, renderJson (.obj fs) d = c :: cs2 ∧ isWsChar c = false ∧ c ≠ ']' := by
  cases fs with
  | nil => exact ⟨'\x7b', ['\x7d'], by simp [renderJson], by decide, by decide⟩
  | cons kv fs2 =>
    exact ⟨'\x7b', '\n' :: (renderFieldsR (kv :: fs2) (d + 1) ++ '\n' :: (indent d ++ ['\x7d'])),
      by simp [renderJson], by decide, by decide⟩

theorem roundTrips_taskToJson (t : Task) (d : Nat) : RoundTrips (taskToJson t) d := by
  apply roundTrips_obj
  intro kv hkv
  simp only [taskToJson, List.mem_cons, List.not_mem_nil, or_false] at hkv
  rcases hkv with rfl | rfl | rfl
  · exact roundTrips_str _ _
  · exact roundTrips_str _ _
  · exact roundTrips_bool _ _

theorem roundTrips_columnToJson (c : Column) (d : Nat) : RoundTrips (columnToJson c) d := by
  apply roundTrips_obj
  intro kv hkv
  simp only [columnToJson, List.mem_cons, List.not_mem_nil, or_false] at hkv
  rcases hkv with rfl | rfl | rfl
  · exact roundTrips_str _ _
  · exact roundTrips_str _ _
  · apply roundTrips_arr
    · intro v hv
      obtain ⟨t, _, rfl⟩ := List.mem_map.mp hv
      exact roundTrips_taskToJson t _
    · intro v hv
      obtain ⟨t, _, rfl⟩ := List.mem_map.mp hv
      exact obj_starts_plain _ _

theorem roundTrips_sectionToJson (s : Section) (d : Nat) : RoundTrips (sectionToJson s) d := by
  apply roundTrips_obj
  intro kv hkv
  simp only [sectionToJson, List.mem_cons, List.not_mem_nil, or_false] at hkv
  rcases hkv with rfl | rfl | rfl
  · exact roundTrips_str _ _
  · exact roundTrips_str _ _
  · apply roundTrips_arr
    · intro v hv
      obtain ⟨c, _, rfl⟩ := List.mem_map.mp hv
      exact roundTrips_columnToJson c _
    · intro v hv
      obtain ⟨c, _, rfl⟩ := List.mem_map.mp hv
      exact obj_starts_plain _ _

theorem roundTrips_boardToJson (b : Board) : RoundTrips (boardToJson b) 0 := by
  apply roundTrips_arr
  · intro v hv
    obtain ⟨s, _, rfl⟩ := List.mem_map.mp hv
    exact roundTrips_sectionToJson s _
  · intro v hv
    obtain ⟨s, _, rfl⟩ := List.mem_map.mp hv
    exact obj_starts_plain _ _

/-- Parsing the exported text recovers exactly the exported value. -/
theorem parseJson_exportText (b : Board) :
    parseJson (exportText b) = some (boardToJson b) := by
  have h := roundTrips_boardToJson b []
    (2 * (renderJson (boardToJson b) 0).length + 2) (by simp)
  rw [List.append_nil] at h
  have hdata : (exportText b).data = renderJson (boardToJson b) 0 := rfl
  rw [parseJson, hdata, h]
  simp [skipWs]

theorem taskToJson_inj (t1 t2 : Task) (h : taskToJson t1 = taskToJson t2) : t1 = t2 := by
  cases t1
  cases t2
  simp only [taskToJson, Json.obj.injEq, List.cons.injEq, Prod.mk.injEq, Json.str.injEq,
    Json.boolVal.injEq, and_true, true_and] at h
  simp [h.1, h.2.1, h.2.2]

theorem columnToJson_inj (c1 c2 : Column) (h : columnToJson c1 = columnToJson c2) : c1 = c2 := by
  cases c1
  cases c2
  simp only [columnToJson, Json.obj.injEq, List.cons.injEq, Prod.mk.injEq, Json.str.injEq,
    Json.arr.injEq, and_true, true_and] at h
  simp only [Column.mk.injEq]
  refine ⟨h.1, h.2.1, ?_⟩
  exact List.map_injective_iff.mpr (fun a b hab => taskToJson_inj a b hab) h.2.2

theorem sectionToJson_inj (s1 s2 : Section) (h : sectionToJson s1 = sectionToJson s2) :
    s1 = s2 := by
  cases s1
  cases s2
  simp only [sectionToJson, Json.obj.injEq, List.cons.injEq, Prod.mk.injEq, Json.str.injEq,
    Json.arr.injEq, and_true, true_and] at h
  simp only [Section.mk.injEq]
  refine ⟨h.1, h.2.1, ?_⟩
  exact List.map_injective_iff.mpr (fun a b hab => columnToJson_inj a b hab) h.2.2

theorem boardToJson_inj (b1 b2 : Board) (h : boardToJson b1 = boardToJson b2) : b1 = b2 := by
  simp only [boardToJson, Json.arr.injEq] at h
  exact List.map_injective_iff.mpr (fun a b hab => sectionToJson_inj a b hab) h

/-- Claim C5: exporting a board (`JSON.stringify(sections, null, 2)`) and
importing the resulting text puts exactly the exported board back as the
state, with no rejection message; since `boardToJson` is injective, the
resulting value determines a board deep-equal to the original. -/
theorem export_import_roundtrip (sections : Board) (cur : Json) :
    importData (exportText sections) cur = (boardToJson sections, none) ∧
    ∀ b2 : Board, boardToJson b2 = boardToJson sections → b2 = sections := by
  constructor
  · rw [importData, parseJson_exportText sections]
    simp [boardToJson, isArr]
  · intro b2 h
    exact boardToJson_inj b2 sections h

theorem export_import_roundtrip_witness :
    importData (exportText initialSections) (Json.arr []) =
      (boardToJson initialSections, none) ∧ initialSections = initialSections :=
  ⟨(export_import_roundtrip initialSections (Json.arr [])).1,
   (export_import_roundtrip initialSections (Json.arr [])).2 initialSections rfl⟩

/-- Claim C6: `importData` keeps the board and reports the read-error
message when the text does not parse as JSON; it keeps the board and
reports the invalid-format message when the parsed top level is not an
array; and it installs a top-level array verbatim with no rejection and no
deeper validation. -/
theorem importData_validation (text : String) (cur : Json) :
    (parseJson text = none →
      importData text cur = (cur, some "Error reading file. Please select a valid JSON file.")) ∧
    (∀ v : Json, parseJson text = some v → isArr v = false →
      importData text cur =
        (cur, some "Invalid JSON format. Please select a valid FocusTask export file.")) ∧
    (∀ l : List Json, parseJson text = some (.arr l) →
      importData text cur = (.arr l, none)) := by
  refine ⟨?_, ?_, ?_⟩
  · intro h
    rw [importData, h]
  · intro v hv harr
    rw [importData, hv]
    simp [harr]
  · intro l hl
    rw [importData, hl]
    simp [isArr]

theorem importData_validation_witness :
    importData "\x7b\"foo\":\"bar\"\x7d" (boardToJson initialSections) =
      (boardToJson initialSections,
        some "Invalid JSON format. Please select a valid FocusTask export file.") ∧
    importData "not json at all" (boardToJson initialSections) =
      (boardToJson initialSections,
        some "Error reading file. Please select a valid JSON file.") ∧
    importData "[]" (boardToJson initialSections) = (Json.arr [], none) :=
  ⟨(importData_validation "\x7b\"foo\":\"bar\"\x7d" (boardToJson initialSections)).2.1
      (Json.obj [("foo", Json.str "bar")]) rfl rfl,
   (importData_validation "not json at all" (boardToJson initialSections)).1 rfl,
   (importData_validation "[]" (boardToJson initialSections)).2.2 [] rfl⟩

end FocusTask
